import Mathlib

/-!
# Verification of the FPPC scrape pipeline specification

Shallow embedding of the parts of the pipeline referenced by the spec:
the Tesseract canary scan, the fidelity writes, the citation classifier,
the extractor's OCR-fallback decision and self-citation filter, the
section-parse confidence, the quality content score, the structured-record
JSON codec, and the LLM response salvage logic.

Conventions:
  * Python strings are embedded as `List Char` (the type `Str`);
    `String` is used only for closed enumeration labels (risk tiers,
    extraction methods) that the code never inspects character-wise.
  * Python floats are embedded as exact rationals (`ℚ`).  Every numeric
    literal of the source (0.30, 0.05, ...) is read as the exact decimal.
  * Regular expressions of the source are embedded as executable matching
    functions over `List Char`, restricted to the ASCII character classes
    (the corpus is ASCII); each embedding notes the pattern it models.
-/

set_option autoImplicit false

namespace FppcScrape

/-- Python `str` payloads are modelled as lists of characters. -/
abbrev Str := List Char

/-- Python's `\s` / `str.strip` whitespace class (ASCII part). -/
def isSpaceChar (c : Char) : Bool :=
  c = ' ' || c = '\t' || c = '\n' || c = '\r' || c = '\x0b' || c = '\x0c'

/-- Python's `\w` word-character class (ASCII part): `[A-Za-z0-9_]`. -/
def isWordChar (c : Char) : Bool :=
  c.isAlpha || c.isDigit || c = '_'

/-- ASCII lower-casing of a character (Python `str.lower` on ASCII). -/
def lowerChar (c : Char) : Char := c.toLower

/-- ASCII upper-casing of a character (Python `str.upper` on ASCII). -/
def upperChar (c : Char) : Char := c.toUpper

/-- Python `str.lower` (ASCII fragment). -/
def lowerStr (s : Str) : Str := s.map lowerChar

/-- Python `str.upper` (ASCII fragment). -/
def upperStr (s : Str) : Str := s.map upperChar

/-- Python `str.strip()` : drop leading and trailing whitespace. -/
def pyStrip (s : Str) : Str :=
  ((s.dropWhile isSpaceChar).reverse.dropWhile isSpaceChar).reverse

/-- Python `str.split()` with no separator: split on whitespace runs,
dropping empty pieces. -/
def pySplit (s : Str) : List Str :=
  ((s.splitOnP (fun c => isSpaceChar c)).filter (fun w => w ≠ []))

/-- Decide whether `pat` occurs as a contiguous substring of `s`
(`pat in s` / an anchorless literal regex search). -/
def isSubstr (pat : Str) : Str → Bool
  | [] => pat.isEmpty
  | c :: rest => pat.isPrefixOf (c :: rest) || isSubstr pat rest

/-!
## Tesseract canary scan (`scripts/run_tesseract_canary.py`)
-/

/-- `normalize_for_comparison`: lowercase, replace `[^\w\s]` by a space,
collapse whitespace runs to single spaces, strip. -/
def collapseWs (s : Str) : Str :=
  (s.foldl
    (fun (acc : Str × Bool) c =>
      if isSpaceChar c then (if acc.2 then acc.1 else acc.1 ++ [' '], true)
      else (acc.1 ++ [c], false))
    ([], false)).1

/-- `normalize_for_comparison` from `run_tesseract_canary.py` (also duplicated
verbatim in `verify_high_risk.py`). -/
def normalizeForComparison (s : Str) : Str :=
  pyStrip (collapseWs ((lowerStr s).map
    (fun c => if isWordChar c || isSpaceChar c then c else ' ')))

/-- The `DESCRIPTION_MODE_PATTERNS` regex family, expanded into its literal
alternatives (every alternation in the source is a finite choice of literal
words); matching is case-insensitive, so the phrases are stored lowercase. -/
def descriptionModePhrases : List Str :=
  [ "the image is".data, "the image shows".data, "the image contains".data,
    "the image appears".data, "the image displays".data,
    "the image presents".data,
    "this is a scanned".data, "this appears to be a scanned".data,
    "the document is".data, "the document appears".data,
    "the document shows".data, "the document contains".data,
    "scanned image of".data, "scanned copy of".data,
    "scanned document of".data, "photographed image of".data,
    "photographed copy of".data, "photographed document of".data,
    "the text of the image".data, "the text of the document".data,
    "the text in the image".data, "the text in the document".data,
    "the content of the image".data, "the content of the document".data,
    "the content in the image".data, "the content in the document".data,
    "this image is".data, "this image shows".data,
    "this image contains".data ]

/-- `detect_description_mode`: search the first 500 characters for any
description-mode marker. -/
def detectDescriptionMode (text : Str) : Bool :=
  descriptionModePhrases.any (fun p => isSubstr p (lowerStr (text.take 500)))

/-- Length of the common prefix of two lists (used by the longest-matching-
block search). -/
def commonRun : Str → Str → Nat
  | a :: as, b :: bs => if a = b then commonRun as bs + 1 else 0
  | _, _ => 0

/-- Longest common prefix length for two word sequences. -/
def commonRunW : List Str → List Str → Nat
  | a :: as, b :: bs => if a = b then commonRunW as bs + 1 else 0
  | _, _ => 0

/-- `difflib.SequenceMatcher.find_longest_match` (junk-free): the longest
common contiguous block, ties broken by the earliest start in `a`, then the
earliest start in `b`.  Returns `(i, j, k)`. -/
def findLongestBlock (a b : List Str) : Nat × Nat × Nat :=
  ((List.range (a.length + 1)).flatMap
    (fun i => (List.range (b.length + 1)).map
      (fun j => (i, j, commonRunW (a.drop i) (b.drop j))))).foldl
    (fun best c => if c.2.2 > best.2.2 then c else best) (0, 0, 0)

/-- Total size of the matching blocks found by the `SequenceMatcher`
divide-and-conquer recursion (the `autojunk` heuristic, which only activates
for sequences of 200+ elements, is not modelled; no claim depends on the
similarity value of non-degenerate inputs). -/
def matchTotal (fuel : Nat) (a b : List Str) : Nat :=
  match fuel with
  | 0 => 0
  | fuel + 1 =>
    let ijk := findLongestBlock a b
    let i := ijk.1
    let j := ijk.2.1
    let k := ijk.2.2
    if k = 0 then 0
    else matchTotal fuel (a.take i) (b.take j) + k +
      matchTotal fuel (a.drop (i + k)) (b.drop (j + k))

/-- `SequenceMatcher(None, a, b).ratio() = 2*M / (len(a)+len(b))`
(1 when both sequences are empty). -/
def similarityOf (a b : List Str) : ℚ :=
  if a.length + b.length = 0 then 1
  else 2 * (matchTotal (a.length + b.length) a b : ℚ) / (a.length + b.length)

/-- `compare_texts`: normalise both texts, return 1.0 if both normalise to
empty, 0.0 if exactly one does, else the word-level similarity. -/
def compareTexts (tessText olmText : Str) : ℚ :=
  let tN := normalizeForComparison tessText
  let oN := normalizeForComparison olmText
  if tN = [] ∧ oN = [] then 1
  else if tN = [] ∨ oN = [] then 0
  else similarityOf (pySplit tN) (pySplit oN)

/-- Python `round(x, 4)`: round to four decimal places, halves to even. -/
def roundHalfEven (y : ℚ) : ℤ :=
  let f := ⌊y⌋
  if y - f < 1/2 then f
  else if y - f > 1/2 then f + 1
  else if Even f then f else f + 1

/-- `round(x, 4)` on an exact rational. -/
def pyRound4 (x : ℚ) : ℚ := (roundHalfEven (x * 10000) : ℚ) / 10000

/-- The risk-tier classification of `process_single_doc`
(`run_tesseract_canary.py:232-242`). -/
def classifyRiskTier (isDescriptionMode : Bool) (canaryScore : ℚ) : String :=
  if isDescriptionMode then "critical"
  else if canaryScore < 3/10 then "critical"
  else if canaryScore < 1/2 then "high"
  else if canaryScore < 7/10 then "medium"
  else "low"

/-- The text-level outcome of the canary scan for one document. -/
structure CanaryDoc where
  canaryScore : ℚ
  isDescriptionMode : Bool
  riskTier : String
  error : Option String
deriving DecidableEq, Repr

/-- The text-level core of `process_single_doc`: given the stored olmOCR text
and the concatenated Tesseract text of the scanned pages.  An empty olmOCR
text short-circuits to risk `high` with an error before any comparison
(lines 184-190); otherwise the document is scored and classified
(lines 192-255).  File resolution, page iteration and the per-page
diagnostic scores are I/O and are outside the embedding. -/
def processCanary (olmText tessText : Str) : CanaryDoc :=
  if olmText = [] then
    ⟨0, false, "high", some "no olmOCR text found"⟩
  else
    let dm := detectDescriptionMode olmText
    let score := compareTexts tessText olmText
    ⟨pyRound4 score, dm, classifyRiskTier dm score, none⟩

/-!
## State-store fidelity writes (`scraper/db.py`, `run_tesseract_canary.py`,
`verify_high_risk.py`)
-/

/-- One write of the fidelity columns `(fidelity_score, fidelity_method,
fidelity_risk)` via `update_fidelity` or `backfill_native_fidelity`. -/
structure FidelityWrite where
  score : ℚ
  method : String
  risk : String
deriving DecidableEq, Repr

/-- The fidelity-column writes the pipeline can issue, one constructor per
write site:
* `backfillNative` — `db.backfill_native_fidelity` (both UPDATEs write
  `(1.0, native_trusted, verified)`);
* `canaryUpdate` — `run_tesseract_canary.main --update-db` writes the
  rounded canary score with the tier classified from the unrounded score;
* `phase2Unreadable` / `phase2RepairFixed` / `phase2HallucinatedHigh` /
  `phase2Verified` — the four `update_fidelity` calls of
  `verify_high_risk.main` (lines 336, 369, 376, 381); `verify_with_haiku`
  reports `is_hallucinated = similarity < 0.40` on the unrounded similarity
  and stores the similarity rounded to 4 places. -/
inductive PipelineWrite : FidelityWrite → Prop where
  | backfillNative :
      PipelineWrite ⟨1, "native_trusted", "verified"⟩
  | canaryUpdate (dm : Bool) (score : ℚ) :
      PipelineWrite ⟨pyRound4 score, "tesseract_canary", classifyRiskTier dm score⟩
  | phase2Unreadable :
      PipelineWrite ⟨1/2, "haiku_unreadable", "medium"⟩
  | phase2RepairFixed :
      PipelineWrite ⟨9/10, "haiku_verified_tesseract", "low"⟩
  | phase2HallucinatedHigh (sim : ℚ) (h : sim < 2/5) :
      PipelineWrite ⟨pyRound4 sim, "haiku_verified", "high"⟩
  | phase2Verified (sim : ℚ) (h : ¬ sim < 2/5) :
      PipelineWrite ⟨pyRound4 sim, "haiku_verified", "verified"⟩

/-!
## Heuristic topic classifier (`scraper/classifier.py`)
-/

/-- Value of a non-empty digit string. -/
def digitsToNat (ds : Str) : Nat :=
  ds.foldl (fun n c => n * 10 + (c.toNat - 48)) 0

/-- `_extract_base_section`: `re.match(r"(\d+)", citation.strip())` — the
leading digit run of the stripped citation, if any. -/
def extractBaseSection (citation : Str) : Option Nat :=
  let s := pyStrip citation
  let ds := s.takeWhile Char.isDigit
  if ds = [] then none else some (digitsToNat ds)

/-- `_classify_section` over the `TOPIC_RANGES` table (Python `range(a, b)`
covers `a .. b-1`; the table is scanned in insertion order, first match
wins). -/
def classifySection (n : Nat) : String :=
  if (87100 ≤ n ∧ n ≤ 87500) ∨ (87200 ≤ n ∧ n ≤ 87220) ∨
     (87300 ≤ n ∧ n ≤ 87315) then "conflicts_of_interest"
  else if (84100 ≤ n ∧ n ≤ 84600) ∨ (85100 ≤ n ∧ n ≤ 85800) ∨
          (89500 ≤ n ∧ n ≤ 89600) then "campaign_finance"
  else if 86100 ≤ n ∧ n ≤ 86400 then "lobbying"
  else "other"

/-- The parsed base sections of a citation list, in order. -/
def parsedSections (refs : List Str) : List Nat :=
  refs.filterMap extractBaseSection

/-- How many citations of `refs` fall in topic `t` (after parsing). -/
def topicCount (refs : List Str) (t : String) : Nat :=
  (parsedSections refs).countP (fun n => classifySection n = t)

/-- `sorted(topic_counts.keys())`: the four topics in alphabetical order. -/
def sortedTopicKeys : List String :=
  ["campaign_finance", "conflicts_of_interest", "lobbying", "other"]

/-- Python `max(iterable, key=f)`: the first element attaining the maximal
key (later elements win only by a strictly larger key). -/
def maxByFirst (f : String → Nat) : List String → String
  | [] => ""
  | x :: xs => xs.foldl (fun best t => if f t > f best then t else best) x

/-- `classify_by_citations`'s primary topic: the alphabetically-first topic
(`other` included) with a maximal citation count. -/
def primaryTopic (refs : List Str) : String :=
  maxByFirst (topicCount refs) sortedTopicKeys

/-- Result record of `classify_by_citations` (the debugging
`section_counts` dictionary is represented by `topicCount`). -/
structure ClassificationResult where
  topicPrimary : Option String
  confidence : ℚ
  method : String
deriving DecidableEq, Repr

/-- `classify_by_citations` (`classifier.py:147-235`). -/
def classifyByCitations (refs : List Str) : ClassificationResult :=
  if refs = [] then ⟨none, 0, "heuristic:citation_based"⟩
  else
    let validCount := (parsedSections refs).length
    if validCount = 0 then ⟨none, 0, "heuristic:citation_based"⟩
    else
      let primary := primaryTopic refs
      let primaryCount := topicCount refs primary
      ⟨if primaryCount > 0 then some primary else none,
       (primaryCount : ℚ) / (validCount : ℚ),
       "heuristic:citation_based"⟩

/-!
## Text Extractor fragments (`scraper/extractor.py`)
-/

/-- The result of the olmOCR-fallback comparison in `process_document`
(step 4, lines 628-655): the adopted text, its quality score and the
recorded extraction method. -/
structure OcrChoice where
  text : Str
  score : ℚ
  method : String
deriving DecidableEq, Repr

/-- `process_document` step 4: once olmOCR has produced a result, its
quality score is compared with the native score; the olmOCR text replaces
the native text only on a strictly larger score, otherwise the native text
is kept and the method is recorded as `native+olmocr`. -/
def applyOcrFallback (nativeText : Str) (nativeScore : ℚ)
    (olmText : Str) (olmScore : ℚ) : OcrChoice :=
  if olmScore > nativeScore then ⟨olmText, olmScore, "olmocr"⟩
  else ⟨nativeText, nativeScore, "native+olmocr"⟩

/-- One of `A`, `I`, `M`. -/
def isAIM (c : Char) : Bool := c = 'A' || c = 'I' || c = 'M'

/-- A run of exactly 3 or 4 digits (the anchored `(\d{3,4})$` group). -/
def isDigits34 (s : Str) : Bool :=
  s.all Char.isDigit && (s.length = 3 || s.length = 4)

/-- `^([AIM])-(\d{2})-(\d{3,4})$`. -/
def matchPrefixed : Str → Option (Char × Str × Str)
  | p :: '-' :: y1 :: y2 :: '-' :: rest =>
    if isAIM p && y1.isDigit && y2.isDigit && isDigits34 rest then
      some (p, [y1, y2], rest)
    else none
  | _ => none

/-- `^(\d{2})-(\d{3,4})$`. -/
def matchBareDashed : Str → Option (Str × Str)
  | y1 :: y2 :: '-' :: rest =>
    if y1.isDigit && y2.isDigit && isDigits34 rest then
      some ([y1, y2], rest)
    else none
  | _ => none

/-- `^(\d{2})(\d{3,4})$` (greedy: five digits split 2+3, six split 2+4). -/
def matchCompact (s : Str) : Option (Str × Str) :=
  if s.all Char.isDigit && (s.length = 5 || s.length = 6) then
    some (s.take 2, s.drop 2)
  else none

/-- `^(\d{2})([AIM])(\d{3,4})$`. -/
def matchOldStyle : Str → Option (Str × Char × Str)
  | y1 :: y2 :: p :: rest =>
    if y1.isDigit && y2.isDigit && isAIM p && isDigits34 rest then
      some ([y1, y2], p, rest)
    else none
  | _ => none

/-- `^(\d{2})-(\d{3,4})-` (unanchored tail; the greedy `\d{3,4}` must be
followed directly by a dash). -/
def matchComplex : Str → Option (Str × Str)
  | y1 :: y2 :: '-' :: rest =>
    if y1.isDigit && y2.isDigit then
      let run := rest.takeWhile Char.isDigit
      if (run.length = 3 || run.length = 4) &&
         (rest.drop run.length).head? = some '-' then
        some ([y1, y2], run)
      else none
    else none
  | _ => none

/-- `_build_self_id_variants` (`extractor.py:178-250`): the set of variant
forms of a letter id, as the list of its members (only membership is ever
used). -/
def buildSelfIdVariants (letterId : Str) : List Str :=
  let lid := upperStr letterId
  match matchPrefixed lid with
  | some (p, yy, nnn) =>
    [lid, yy ++ ['-'] ++ nnn, yy ++ nnn, p :: (yy ++ nnn)]
  | none =>
  match matchBareDashed lid with
  | some (yy, nnn) =>
    [lid, yy ++ nnn, 'A' :: '-' :: yy ++ ['-'] ++ nnn,
     'I' :: '-' :: yy ++ ['-'] ++ nnn, 'M' :: '-' :: yy ++ ['-'] ++ nnn]
  | none =>
  match matchCompact lid with
  | some (yy, nnn) =>
    [lid, yy ++ ['-'] ++ nnn, 'A' :: '-' :: yy ++ ['-'] ++ nnn,
     'I' :: '-' :: yy ++ ['-'] ++ nnn, 'M' :: '-' :: yy ++ ['-'] ++ nnn]
  | none =>
  match matchOldStyle lid with
  | some (yy, p, nnn) =>
    [lid, p :: '-' :: yy ++ ['-'] ++ nnn, yy ++ ['-'] ++ nnn, yy ++ nnn]
  | none =>
  match matchComplex lid with
  | some (yy, nnn) =>
    [lid, yy ++ ['-'] ++ nnn, 'A' :: '-' :: yy ++ ['-'] ++ nnn,
     'I' :: '-' :: yy ++ ['-'] ++ nnn, 'M' :: '-' :: yy ++ ['-'] ++ nnn]
  | none => [lid]

/-- `process_document` step 6b (`extractor.py:663-669`): drop every prior
opinion whose upper-cased form is a variant of the document's own id. -/
def filterSelfCitations (letterId : Str) (priorOps : List Str) : List Str :=
  let variants := buildSelfIdVariants letterId
  priorOps.filter (fun op => ¬ upperStr op ∈ variants)

/-!
## Section-parse confidence (`scraper/section_parser.py:439-493`)
-/

/-- `_compute_confidence`: `extracted` is abstracted to the set of section
keys present; `issues` to its length (only `len(issues)` is read). -/
def computeConfidence (extracted : List String) (issueCount : Nat)
    (year : Option Int) : ℚ :=
  let hasQ := "question" ∈ extracted
  let hasC := "conclusion" ∈ extracted
  let hasA := "analysis" ∈ extracted
  let hasF := "facts" ∈ extracted
  let base : ℚ :=
    if hasQ ∧ hasC then 9/10
    else if hasQ ∨ hasC then 6/10
    else if hasA ∨ hasF then 4/10
    else 0
  let base := if hasQ ∧ hasC ∧ hasA ∧ hasF then min (base + 1/20) 1 else base
  let base :=
    match year with
    | none => base
    | some y =>
      if y ≥ 2010 then min (base + 1/20) 1
      else if y ≥ 2000 then base
      else if y ≥ 1985 then max (base - 1/20) 0
      else max (base - 3/20) 0
  let base := base - (1/10) * (issueCount : ℚ)
  max 0 (min 1 base)

/-!
## Quality scorer content patterns (`scraper/quality.py:385-438`)
-/

/-- `\b` to the left of a match position. -/
def boundaryBefore (prev : Option Char) : Bool :=
  match prev with
  | none => true
  | some c => ¬ isWordChar c

/-- `\b` to the right of a match: end of text or a non-word character. -/
def boundaryAfter (s : Str) : Bool :=
  match s.head? with
  | none => true
  | some c => ¬ isWordChar c

/-- Search a position-wise matcher (which may inspect the previous
character, for `\b`) at every position of `s`. -/
def searchFrom (p : Option Char → Str → Bool) : Option Char → Str → Bool
  | prev, s =>
    p prev s ||
      match s with
      | [] => false
      | c :: rest => searchFrom p (some c) rest

/-- A literal-word sequence joined by `\s+`, matched at the current
position (no boundary requirements). -/
def phraseCore : List Str → Str → Bool
  | [], _ => true
  | [w], s => w.isPrefixOf s
  | w :: rest, s =>
    w.isPrefixOf s &&
      (let s1 := s.drop w.length
       ¬ (s1.takeWhile isSpaceChar).isEmpty &&
         phraseCore rest (s1.dropWhile isSpaceChar))

/-- Body of `phraseBAt`: leading words joined by `\s+`, then the last word
followed by `\b`. -/
def phraseBCore : List Str → Str → Str → Bool
  | [], lw, s =>
    lw.isPrefixOf s && boundaryAfter (s.drop lw.length)
  | w :: rest, lw, s =>
    w.isPrefixOf s &&
      (let s1 := s.drop w.length
       ¬ (s1.takeWhile isSpaceChar).isEmpty &&
         phraseBCore rest lw (s1.dropWhile isSpaceChar))

/-- A literal-word sequence joined by `\s+`, with `\b` at both ends,
matched at the current position. -/
def phraseBAt (ws : List Str) (last : Str) (prev : Option Char)
    (s : Str) : Bool :=
  boundaryBefore prev && phraseBCore ws last s

/-- Month-name alternatives of the date regex, lowercase. -/
def monthNames : List Str :=
  ["january".data, "february".data, "march".data, "april".data, "may".data,
   "june".data, "july".data, "august".data, "september".data,
   "october".data, "november".data, "december".data]

/-- `\s+\d{4}\b` (the year part of the first date pattern). -/
def spaceYear (s : Str) : Bool :=
  ¬ (s.takeWhile isSpaceChar).isEmpty &&
    (let s1 := s.dropWhile isSpaceChar
     (s1.take 4).all Char.isDigit && (s1.take 4).length = 4 &&
       boundaryAfter (s1.drop 4))

/-- `,?\s+\d{4}\b` after the day digits (the optional comma backtracks). -/
def afterDay (s : Str) : Bool :=
  (if s.head? = some ',' then spaceYear (s.drop 1) else false) || spaceYear s

/-- `\d{1,2}` (greedy, with backtracking) followed by `,?\s+\d{4}\b`. -/
def dayThenYear (s : Str) : Bool :=
  let run := (s.takeWhile Char.isDigit).length
  (decide (run ≥ 2) && afterDay (s.drop 2)) ||
    (decide (run ≥ 1) && afterDay (s.drop 1))

/-- First date pattern
`\b(January|…|December)\s+\d{1,2},?\s+\d{4}\b` (case-insensitive; matched
on the lowercased text) at one position. -/
def monthDateAt (prev : Option Char) (s : Str) : Bool :=
  boundaryBefore prev &&
    monthNames.any (fun m =>
      m.isPrefixOf s &&
        (let s1 := s.drop m.length
         ¬ (s1.takeWhile isSpaceChar).isEmpty &&
           dayThenYear (s1.dropWhile isSpaceChar)))

/-- `\d{a,b}` immediately followed by a given check, with greedy
backtracking over the allowed lengths. -/
def digitsThen (lens : List Nat) (s : Str) (k : Str → Bool) : Bool :=
  let run := (s.takeWhile Char.isDigit).length
  lens.any (fun l => decide (run ≥ l) && k (s.drop l))

/-- Second date pattern `\b\d{1,2}/\d{1,2}/\d{2,4}\b` at one position. -/
def slashDateAt (prev : Option Char) (s : Str) : Bool :=
  boundaryBefore prev &&
    digitsThen [2, 1] s (fun s1 =>
      s1.head? = some '/' &&
        digitsThen [2, 1] (s1.drop 1) (fun s2 =>
          s2.head? = some '/' &&
            digitsThen [4, 3, 2] (s2.drop 1) (fun s3 => boundaryAfter s3)))

/-- `_compute_content_score`'s date check (`quality.py:403-408`). -/
def hasDatePattern (text : Str) : Bool :=
  searchFrom (fun prev s => monthDateAt prev s || slashDateAt prev s)
    none (lowerStr text)

/-- `_compute_content_score`'s FPPC check (`quality.py:410-416`), searched
on the upper-cased text. -/
def hasFppcMention (up : Str) : Bool :=
  searchFrom (phraseBAt [] "FPPC".data) none up ||
    searchFrom (fun _ s =>
      phraseCore ["FAIR".data, "POLITICAL".data, "PRACTICES".data,
        "COMMISSION".data] s) none up ||
    searchFrom (fun _ s =>
      phraseCore ["POLITICAL".data, "REFORM".data, "ACT".data] s) none up

/-- The five section-header patterns of `_compute_content_score`
(`quality.py:418-426`). -/
def sectionHeaderCount (up : Str) : Nat :=
  (List.count true
    [searchFrom (phraseBAt [] "QUESTION".data) none up,
     searchFrom (phraseBAt [] "CONCLUSION".data) none up,
     searchFrom (phraseBAt [] "FACTS".data) none up,
     searchFrom (phraseBAt [] "ANALYSIS".data) none up,
     searchFrom (phraseBAt ["SHORT".data] "ANSWER".data) none up])

/-- `_compute_content_score` (`quality.py:385-438`): the content sub-score
and the three marker flags. -/
def computeContentScore (text : Str) : ℚ × Bool × Bool × Bool :=
  let up := upperStr text
  let hasDate := hasDatePattern text
  let hasFppc := hasFppcMention up
  let hasSections := decide (sectionHeaderCount up ≥ 2)
  ((if hasDate then 33/100 else 0) + (if hasFppc then 34/100 else 0) +
     (if hasSections then 33/100 else 0),
   hasDate, hasFppc, hasSections)

/-!
## JSON values (the fragment of Python's `json` module used by
`scraper/schema.py` and `scraper/llm_extractor.py`)

JSON numbers are carried syntactically as a mantissa and a decimal scale
(`num m s` denotes `m / 10^s` printed with exactly `s` fractional digits),
which represents Python's exact decimal rendering of `int` and `float`
values.  `Json`/`JsonList`/`JsonMembers` are a mutual inductive (rather
than a nested one) so that every function below is structurally recursive
and kernel-reducible.
-/

mutual

inductive Json where
  | null : Json
  | bool (b : Bool) : Json
  | num (m : ℤ) (s : ℕ) : Json
  | str (s : Str) : Json
  | arr (elems : JsonList) : Json
  | obj (members : JsonMembers) : Json
deriving DecidableEq

inductive JsonList where
  | nil : JsonList
  | cons (hd : Json) (tl : JsonList) : JsonList
deriving DecidableEq

inductive JsonMembers where
  | nil : JsonMembers
  | cons (key : Str) (val : Json) (tl : JsonMembers) : JsonMembers
deriving DecidableEq

end

/-- Lower-case hexadecimal digit (as `json.dumps` emits in `\uXXXX`). -/
def hexDigitChar (n : Nat) : Char :=
  if n < 10 then Char.ofNat (48 + n) else Char.ofNat (87 + n)

/-- `json.dumps` escaping of one character with `ensure_ascii=False`:
quote, backslash and the C0 control characters are escaped, everything
else is emitted verbatim. -/
def escapeChar (c : Char) : Str :=
  if c = '"' then ['\\', '"']
  else if c = '\\' then ['\\', '\\']
  else if c = '\n' then ['\\', 'n']
  else if c = '\t' then ['\\', 't']
  else if c = '\r' then ['\\', 'r']
  else if c = '\x08' then ['\\', 'b']
  else if c = '\x0c' then ['\\', 'f']
  else if c.toNat < 32 then
    ['\\', 'u', '0', '0', hexDigitChar (c.toNat / 16), hexDigitChar (c.toNat % 16)]
  else [c]

/-- The escaped body of a JSON string literal. -/
def escapeStr (s : Str) : Str :=
  s.foldr (fun c acc => escapeChar c ++ acc) []

/-- A JSON string literal. -/
def renderStr (s : Str) : Str := '"' :: (escapeStr s ++ ['"'])

/-- The decimal digits of a natural number, most significant first. -/
def natToDigits (n : Nat) : Str :=
  if h : n < 10 then [Char.ofNat (48 + n)]
  else natToDigits (n / 10) ++ [Char.ofNat (48 + n % 10)]
decreasing_by exact Nat.div_lt_self (by omega) (by omega)

/-- Render `num m s`: the digits of `|m|` left-padded to at least `s+1`
digits, with a decimal point inserted `s` digits from the right when
`s > 0` (Python prints `int` without a point and `float` with one). -/
def renderNum (m : ℤ) (s : ℕ) : Str :=
  let raw := natToDigits m.natAbs
  let ds := List.replicate (s + 1 - raw.length) '0' ++ raw
  let signPart : Str := if m < 0 then ['-'] else []
  if s = 0 then signPart ++ ds
  else signPart ++ (ds.take (ds.length - s) ++ '.' :: ds.drop (ds.length - s))

/-- `indent=2` padding at nesting level `lvl`. -/
def jIndent (lvl : Nat) : Str := List.replicate (2 * lvl) ' '

mutual

/-- `json.dumps(v, indent=2, ensure_ascii=False)` at nesting level `lvl`. -/
def renderAt : Nat → Json → Str
  | _, .null => "null".data
  | _, .bool true => "true".data
  | _, .bool false => "false".data
  | _, .num m s => renderNum m s
  | _, .str s => renderStr s
  | _, .arr .nil => "[]".data
  | lvl, .arr (.cons e es) =>
    '[' :: '\n' :: (jIndent (lvl + 1) ++ renderElems (lvl + 1) (.cons e es) ++
      '\n' :: (jIndent lvl ++ [']']))
  | _, .obj .nil => "\x7b\x7d".data
  | lvl, .obj (.cons k v kvs) =>
    '\x7b' :: '\n' :: (jIndent (lvl + 1) ++ renderMembers (lvl + 1) (.cons k v kvs) ++
      '\n' :: (jIndent lvl ++ ['\x7d']))

/-- Array elements: each at level `lvl`, separated by `",\n" ++ indent`
(the indentation of the first element is emitted by the caller). -/
def renderElems : Nat → JsonList → Str
  | _, .nil => []
  | lvl, .cons e .nil => renderAt lvl e
  | lvl, .cons e (.cons f es) =>
    renderAt lvl e ++ ',' :: '\n' :: (jIndent lvl ++ renderElems lvl (.cons f es))

/-- Object members: `"key": value` at level `lvl`, separated by
`",\n" ++ indent`. -/
def renderMembers : Nat → JsonMembers → Str
  | _, .nil => []
  | lvl, .cons k v .nil => renderStr k ++ ':' :: ' ' :: renderAt lvl v
  | lvl, .cons k v (.cons k2 v2 kvs) =>
    renderStr k ++ ':' :: ' ' :: renderAt lvl v ++
      ',' :: '\n' :: (jIndent lvl ++ renderMembers lvl (.cons k2 v2 kvs))

end

/-- `json.dumps(v, indent=2, ensure_ascii=False)`. -/
def renderJson (v : Json) : Str := renderAt 0 v

/-- JSON inter-token whitespace accepted by `json.loads`. -/
def isJsonWs (c : Char) : Bool :=
  c = ' ' || c = '\t' || c = '\n' || c = '\r'

/-- Skip inter-token whitespace. -/
def skipJWs (s : Str) : Str := s.dropWhile isJsonWs

/-- Value of one hexadecimal digit. -/
def hexVal (c : Char) : Option Nat :=
  if '0' ≤ c ∧ c ≤ '9' then some (c.toNat - 48)
  else if 'a' ≤ c ∧ c ≤ 'f' then some (c.toNat - 87)
  else if 'A' ≤ c ∧ c ≤ 'F' then some (c.toNat - 70)
  else none

/-- The decoded character of a two-character escape, if the escape letter
is one of the simple JSON escapes. -/
def simpleEscape (c : Char) : Option Char :=
  if c = '"' then some '"'
  else if c = '\\' then some '\\'
  else if c = '/' then some '/'
  else if c = 'b' then some '\x08'
  else if c = 'f' then some '\x0c'
  else if c = 'n' then some '\n'
  else if c = 'r' then some '\r'
  else if c = 't' then some '\t'
  else none

mutual

/-- Parse the body of a JSON string literal (after the opening quote),
returning the decoded content and the remainder after the closing quote.
`\uXXXX` escapes are accepted for valid scalar values; surrogate pairing
is not modelled (the repository never emits surrogate escapes). -/
def parseStringBody : Str → Option (Str × Str)
  | [] => none
  | c :: rest =>
    if c = '"' then some ([], rest)
    else if c = '\\' then parseEscape rest
    else if c.toNat < 32 then none
    else (parseStringBody rest).map (fun p => (c :: p.1, p.2))

/-- Parse what follows a backslash inside a string literal. -/
def parseEscape : Str → Option (Str × Str)
  | [] => none
  | e :: r =>
    if e = 'u' then
      match r with
      | h1 :: h2 :: h3 :: h4 :: r2 =>
        match hexVal h1, hexVal h2, hexVal h3, hexVal h4 with
        | some a, some b, some c, some d =>
          let code := ((a * 16 + b) * 16 + c) * 16 + d
          if h : code.isValidChar then
            (parseStringBody r2).map (fun p => (Char.ofNatAux code h :: p.1, p.2))
          else none
        | _, _, _, _ => none
      | _ => none
    else
      match simpleEscape e with
      | some c => (parseStringBody r).map (fun p => (c :: p.1, p.2))
      | none => none

end

/-- An unsigned digit run and its value. -/
def digitRun (s : Str) : Str × Str :=
  (s.takeWhile Char.isDigit, s.dropWhile Char.isDigit)

/-- Parse the exponent part (after `e`/`E`), returning its signed value. -/
def parseExp (s : Str) : Option (ℤ × Str) :=
  match s with
  | '+' :: r =>
    let (ds, r2) := digitRun r
    if ds = [] then none else some ((digitsToNat ds : ℤ), r2)
  | '-' :: r =>
    let (ds, r2) := digitRun r
    if ds = [] then none else some (-(digitsToNat ds : ℤ), r2)
  | _ =>
    let (ds, r2) := digitRun s
    if ds = [] then none else some ((digitsToNat ds : ℤ), r2)

/-- Apply a parsed exponent to a mantissa/scale pair. -/
def applyExp (m : ℤ) (s : ℕ) (e : ℤ) : ℤ × ℕ :=
  if e ≥ 0 then
    let en := e.toNat
    if s ≥ en then (m, s - en) else (m * (10 : ℤ) ^ (en - s), 0)
  else (m, s + (-e).toNat)

/-- Parse an unsigned JSON number starting at a digit. -/
def parseUnsignedNum (s : Str) : Option ((ℤ × ℕ) × Str) :=
  let d1 := s.takeWhile Char.isDigit
  let r1 := s.dropWhile Char.isDigit
  if d1 = [] then none
  else if r1.head? = some '.' then
    let d2 := r1.tail.takeWhile Char.isDigit
    let r3 := r1.tail.dropWhile Char.isDigit
    if d2 = [] then none
    else
      let m : ℤ := (digitsToNat (d1 ++ d2) : ℤ)
      if r3.head? = some 'e' ∨ r3.head? = some 'E' then
        (parseExp r3.tail).map (fun p => (applyExp m d2.length p.1, p.2))
      else some ((m, d2.length), r3)
  else if r1.head? = some 'e' ∨ r1.head? = some 'E' then
    (parseExp r1.tail).map (fun p => (applyExp (digitsToNat d1 : ℤ) 0 p.1, p.2))
  else some (((digitsToNat d1 : ℤ), 0), r1)

/-- Parse a JSON number (optional leading minus). -/
def parseNum (s : Str) : Option ((ℤ × ℕ) × Str) :=
  if s.head? = some '-' then
    (parseUnsignedNum s.tail).map (fun p => ((-p.1.1, p.1.2), p.2))
  else parseUnsignedNum s

/-- Last-occurrence value for `k` in a member list (Python dict semantics:
a later duplicate key overwrites the value). -/
def lastVal (k : Str) (v : Json) : JsonMembers → Json
  | .nil => v
  | .cons k2 v2 rest => lastVal k (if k2 = k then v2 else v) rest

/-- Drop every member with key `k`. -/
def removeKey (k : Str) : JsonMembers → JsonMembers
  | .nil => .nil
  | .cons k2 v2 rest =>
    if k2 = k then removeKey k rest else .cons k2 v2 (removeKey k rest)

/-- Member-list length. -/
def membersLen : JsonMembers → Nat
  | .nil => 0
  | .cons _ _ rest => membersLen rest + 1

theorem membersLen_removeKey_le (k : Str) :
    ∀ kvs : JsonMembers, membersLen (removeKey k kvs) ≤ membersLen kvs
  | .nil => by simp [removeKey, membersLen]
  | .cons k2 v2 rest => by
    have ih := membersLen_removeKey_le k rest
    by_cases h : k2 = k <;> simp [removeKey, h, membersLen] <;> omega

/-- Python dict construction from parsed members: the first occurrence of
a key keeps its position, the last occurrence supplies the value. -/
def dedupKeys : JsonMembers → JsonMembers
  | .nil => .nil
  | .cons k v rest =>
    .cons k (lastVal k v rest) (dedupKeys (removeKey k rest))
termination_by kvs => membersLen kvs
decreasing_by
  simp only [membersLen]
  exact Nat.lt_succ_of_le (membersLen_removeKey_le _ _)

mutual

/-- `json.loads`' recursive-descent value parser.  The fuel argument only
bounds the recursion depth; `pyLoads` passes more fuel than any input can
consume.  (Two deliberate leniencies against the strict `json.loads`
grammar, on inputs the repository never produces: leading zeros in
numbers are accepted, and `NaN`/`Infinity` literals are not recognised.) -/
def parseVal (fuel : Nat) (s : Str) : Option (Json × Str) :=
  match fuel with
  | 0 => none
  | fuel + 1 =>
    match skipJWs s with
    | [] => none
    | c :: r =>
      if c = 'n' then
        if "ull".data.isPrefixOf r then some (.null, r.drop 3) else none
      else if c = 't' then
        if "rue".data.isPrefixOf r then some (.bool true, r.drop 3) else none
      else if c = 'f' then
        if "alse".data.isPrefixOf r then some (.bool false, r.drop 4) else none
      else if c = '"' then
        (parseStringBody r).map (fun p => (.str p.1, p.2))
      else if c = '\x7b' then
        match skipJWs r with
        | '\x7d' :: r2 => some (.obj .nil, r2)
        | r1 => (parseMembers fuel r1).map
            (fun p => (.obj (dedupKeys p.1), p.2))
      else if c = '[' then
        match skipJWs r with
        | ']' :: r2 => some (.arr .nil, r2)
        | r1 => (parseElems fuel r1).map (fun p => (.arr p.1, p.2))
      else if c = '-' ∨ c.isDigit then
        (parseNum (c :: r)).map (fun p => (.num p.1.1 p.1.2, p.2))
      else none

/-- Members of a non-empty object: `"key": value`, then `,` and more
members or `}`. -/
def parseMembers (fuel : Nat) (s : Str) : Option (JsonMembers × Str) :=
  match fuel with
  | 0 => none
  | fuel + 1 =>
    match skipJWs s with
    | '"' :: r =>
      match parseStringBody r with
      | none => none
      | some (k, r1) =>
        match skipJWs r1 with
        | ':' :: r3 =>
          match parseVal fuel r3 with
          | none => none
          | some (v, r4) =>
            match skipJWs r4 with
            | ',' :: r6 =>
              (parseMembers fuel r6).map (fun p => (.cons k v p.1, p.2))
            | '\x7d' :: r6 => some (.cons k v .nil, r6)
            | _ => none
        | _ => none
    | _ => none

/-- Elements of a non-empty array. -/
def parseElems (fuel : Nat) (s : Str) : Option (JsonList × Str) :=
  match fuel with
  | 0 => none
  | fuel + 1 =>
    match parseVal fuel s with
    | none => none
    | some (v, r1) =>
      match skipJWs r1 with
      | ',' :: r2 => (parseElems fuel r2).map (fun p => (.cons v p.1, p.2))
      | ']' :: r2 => some (.cons v .nil, r2)
      | _ => none

end

/-- The body of `parseVal`'s dispatch on the first significant character,
as a standalone function (used to state reasoning lemmas; `parseVal` at
positive fuel on a non-whitespace-headed input reduces to it). -/
def parseValHead (fuel : Nat) (c : Char) (r : Str) : Option (Json × Str) :=
  if c = 'n' then
    if "ull".data.isPrefixOf r then some (.null, r.drop 3) else none
  else if c = 't' then
    if "rue".data.isPrefixOf r then some (.bool true, r.drop 3) else none
  else if c = 'f' then
    if "alse".data.isPrefixOf r then some (.bool false, r.drop 4) else none
  else if c = '"' then
    (parseStringBody r).map (fun p => (.str p.1, p.2))
  else if c = '\x7b' then
    match skipJWs r with
    | '\x7d' :: r2 => some (.obj .nil, r2)
    | r1 => (parseMembers fuel r1).map
        (fun p => (.obj (dedupKeys p.1), p.2))
  else if c = '[' then
    match skipJWs r with
    | ']' :: r2 => some (.arr .nil, r2)
    | r1 => (parseElems fuel r1).map (fun p => (.arr p.1, p.2))
  else if c = '-' ∨ c.isDigit then
    (parseNum (c :: r)).map (fun p => (.num p.1.1 p.1.2, p.2))
  else none

/-- `json.loads`: parse one value, allow only whitespace after it. -/
def pyLoads (s : Str) : Option Json :=
  match parseVal (s.length + 1) s with
  | some (v, rest) => if rest.all isJsonWs then some v else none
  | none => none

/-- The keys of a member list. -/
def memberKeys : JsonMembers → List Str
  | .nil => []
  | .cons k _ rest => k :: memberKeys rest

/-- A key list without duplicates. -/
def nodupKeys : List Str → Bool
  | [] => true
  | k :: ks => decide (k ∉ ks) && nodupKeys ks

mutual

/-- Objects throughout the value have duplicate-free key lists (always true
of values produced by `asdict`). -/
def wfJson : Json → Bool
  | .null => true
  | .bool _ => true
  | .num _ _ => true
  | .str _ => true
  | .arr es => wfElems es
  | .obj kvs => nodupKeys (memberKeys kvs) && wfMembers kvs

def wfElems : JsonList → Bool
  | .nil => true
  | .cons e rest => wfJson e && wfElems rest

def wfMembers : JsonMembers → Bool
  | .nil => true
  | .cons _ v rest => wfJson v && wfMembers rest

end

mutual

/-- Enough parser fuel for a value (`parseVal` spends one unit per value
and one per member/element step). -/
def jfuel : Json → Nat
  | .null => 1
  | .bool _ => 1
  | .num _ _ => 1
  | .str _ => 1
  | .arr es => 1 + jfuelElems es
  | .obj kvs => 1 + jfuelMembers kvs

def jfuelElems : JsonList → Nat
  | .nil => 1
  | .cons e rest => 1 + max (jfuel e) (jfuelElems rest)

def jfuelMembers : JsonMembers → Nat
  | .nil => 1
  | .cons _ v rest => 1 + max (jfuel v) (jfuelMembers rest)

end

/-- After a rendered number, the remainder must not begin with a character
that the maximal-munch number parser would consume. -/
def numRestSafe (rest : Str) : Bool :=
  match rest.head? with
  | none => true
  | some c => ¬ (c.isDigit || c = '.' || c = 'e' || c = 'E')

/-- Restriction on what may follow a rendered value for the parse to stop
exactly at its end (only numbers are maximal-munch). -/
def numSafeB (v : Json) (rest : Str) : Bool :=
  match v with
  | .num _ _ => numRestSafe rest
  | _ => true

/-!
## LLM response salvage (`scraper/llm_extractor.py:154-223`)
-/

/-- The optional `json` tag after a fence: `(?:json)?`. -/
def dropJsonTag (s : Str) : Str :=
  if "json".data.isPrefixOf s then s.drop 4 else s

theorem lengthDropWhileLe (p : Char → Bool) (l : Str) :
    (l.dropWhile p).length ≤ l.length := by
  induction l with
  | nil => simp [List.dropWhile]
  | cons c rest ih =>
    by_cases h : p c
    · simpa [List.dropWhile, h] using Nat.le_succ_of_le ih
    · simp [List.dropWhile, h]

theorem lengthDropJsonTagLe (l : Str) :
    (dropJsonTag l).length ≤ l.length := by
  unfold dropJsonTag
  split <;> simp [List.length_drop]

/-- `re.sub(r"```(?:json)?\s*", "", text)`: remove every triple-backtick
fence together with an optional `json` tag and following whitespace,
scanning left to right over non-overlapping matches. -/
def subFences : Str → Str
  | [] => []
  | c :: rest =>
    if c = '`' ∧ rest.take 2 = ['`', '`'] then
      subFences ((dropJsonTag (rest.drop 2)).dropWhile isSpaceChar)
    else c :: subFences rest
termination_by s => s.length
decreasing_by
  · have h1 := lengthDropWhileLe isSpaceChar (dropJsonTag (rest.drop 2))
    have h2 := lengthDropJsonTagLe (rest.drop 2)
    have h3 : (rest.drop 2).length ≤ rest.length := by
      simp [List.length_drop]
    simp only [List.length_cons]
    omega
  · simp only [List.length_cons]; omega

/-- `re.sub(r"```\s*$", "", text)`: drop a final `` ``` `` followed only by
whitespace, if present. -/
def subTrailingFence (s : Str) : Str :=
  let r := s.reverse.dropWhile isSpaceChar
  if r.take 3 = ['`', '`', '`'] then (r.drop 3).reverse else s

/-- The two fence-stripping substitutions of `_salvage_json`
(lines 161-163). -/
def stripFences (s : Str) : Str := subTrailingFence (subFences s)

/-- `re.search(r"\{[\s\S]*\}", text)`: the greedy brace-to-brace span —
from the first `{` through the last `}` of the text, provided the last
`}` lies strictly after the first `{`. -/
def braceSpan (s : Str) : Option Str :=
  let l1 := s.dropWhile (fun c => c ≠ '\x7b')
  let r := l1.reverse.dropWhile (fun c => c ≠ '\x7d')
  if r.length ≥ 2 then some r.reverse else none

/-- `_salvage_json` (`llm_extractor.py:154-180`): strip fences, try a
direct parse, then re-parse the greedy brace span. -/
def salvageJson (text : Str) : Option Json :=
  let t := pyStrip (stripFences text)
  match pyLoads t with
  | some v => some v
  | none =>
    match braceSpan t with
    | some m => pyLoads m
    | none => none

/-- Python truthiness of a decoded JSON value (`if result:` on the salvage
result). -/
def jsonTruthy : Json → Bool
  | .null => false
  | .bool b => b
  | .num m _ => m ≠ 0
  | .str s => ¬ s.isEmpty
  | .arr es => es ≠ .nil
  | .obj kvs => kvs ≠ .nil

/-- The parse decision of one `_call_llm` attempt (`llm_extractor.py:
207-223`) on the raw response text: a direct `json.loads` result is
returned as-is; otherwise the salvage result is returned only when truthy
(`if result:`); anything else is a parse failure (leading to a retry with
a fresh response, and eventually an error). -/
def callLlmParse (raw : Str) : Option Json :=
  match pyLoads raw with
  | some v => some v
  | none =>
    match salvageJson raw with
    | some v => if jsonTruthy v then some v else none
    | none => none

/-!
## Structured Record schema (`scraper/schema.py`)

Python numbers: `int` fields are `ℤ`; `float` fields are `PyFloat`, the
exact decimal a float prints as (mantissa and number of fractional
digits).  The dataclasses perform no runtime type validation, so
well-typedness is only guaranteed for values built by this code; the
typed field readers below reflect the types `to_json` writes.
-/

/-- A Python float as its exact printed decimal: `(m, s)` denotes
`m / 10^s` written with `s` fractional digits. -/
abbrev PyFloat := ℤ × ℕ

structure SourceMetadata where
  title_raw : Str
  tags : List Str
  scraped_at : Str
  source_page_url : Option Str
deriving DecidableEq, Repr

structure ExtractionInfo where
  method : Str
  extracted_at : Str
  page_count : ℤ
  word_count : ℤ
  char_count : ℤ
  quality_score : PyFloat
  olmocr_cost : Option PyFloat
  native_word_count : Option ℤ
deriving DecidableEq, Repr

structure Content where
  full_text : Str
  full_text_markdown : Option Str
deriving DecidableEq, Repr

structure ParsedMetadata where
  date : Option Str
  date_raw : Option Str
  requestor_name : Option Str
  requestor_title : Option Str
  requestor_city : Option Str
  document_type : Str
deriving DecidableEq, Repr

structure Sections where
  question : Option Str
  conclusion : Option Str
  facts : Option Str
  analysis : Option Str
  question_synthetic : Option Str
  conclusion_synthetic : Option Str
  extraction_method : Str
  extraction_confidence : PyFloat
  has_standard_format : Bool
  parsing_notes : Option Str
deriving DecidableEq, Repr

structure Citations where
  government_code : List Str
  regulations : List Str
  prior_opinions : List Str
  cited_by : List Str
  external : List Str
deriving DecidableEq, Repr

structure Classification where
  topic_primary : Option Str
  topic_secondary : Option Str
  topic_tags : List Str
  confidence : Option PyFloat
  classified_at : Option Str
  classification_method : Option Str
deriving DecidableEq, Repr

structure EmbeddingContent where
  qa_text : Str
  qa_source : Str
  first_500_words : Str
  summary : Option Str
deriving DecidableEq, Repr

structure FPPCDocument where
  id : Str
  year : ℤ
  pdf_url : Str
  pdf_sha256 : Str
  local_pdf_path : Str
  source_metadata : SourceMetadata
  extraction : ExtractionInfo
  content : Content
  parsed : ParsedMetadata
  sections : Sections
  citations : Citations
  classification : Classification
  embedding : EmbeddingContent
deriving DecidableEq, Repr

/-- `asdict` leaf conversions. -/
def jStr (s : Str) : Json := .str s

def jOptStr : Option Str → Json
  | none => .null
  | some s => .str s

def jInt (n : ℤ) : Json := .num n 0

def jOptInt : Option ℤ → Json
  | none => .null
  | some n => .num n 0

def jFloat (x : PyFloat) : Json := .num x.1 x.2

def jOptFloat : Option PyFloat → Json
  | none => .null
  | some x => .num x.1 x.2

def jBool (b : Bool) : Json := .bool b

/-- A Python list of strings. -/
def jStrList : List Str → JsonList
  | [] => .nil
  | s :: rest => .cons (.str s) (jStrList rest)

def sourceMetadataToJson (x : SourceMetadata) : Json :=
  .obj (.cons "title_raw".data (jStr x.title_raw)
    (.cons "tags".data (.arr (jStrList x.tags))
      (.cons "scraped_at".data (jStr x.scraped_at)
        (.cons "source_page_url".data (jOptStr x.source_page_url) .nil))))

def extractionInfoToJson (x : ExtractionInfo) : Json :=
  .obj (.cons "method".data (jStr x.method)
    (.cons "extracted_at".data (jStr x.extracted_at)
      (.cons "page_count".data (jInt x.page_count)
        (.cons "word_count".data (jInt x.word_count)
          (.cons "char_count".data (jInt x.char_count)
            (.cons "quality_score".data (jFloat x.quality_score)
              (.cons "olmocr_cost".data (jOptFloat x.olmocr_cost)
                (.cons "native_word_count".data (jOptInt x.native_word_count)
                  .nil))))))))

def contentToJson (x : Content) : Json :=
  .obj (.cons "full_text".data (jStr x.full_text)
    (.cons "full_text_markdown".data (jOptStr x.full_text_markdown) .nil))

def parsedMetadataToJson (x : ParsedMetadata) : Json :=
  .obj (.cons "date".data (jOptStr x.date)
    (.cons "date_raw".data (jOptStr x.date_raw)
      (.cons "requestor_name".data (jOptStr x.requestor_name)
        (.cons "requestor_title".data (jOptStr x.requestor_title)
          (.cons "requestor_city".data (jOptStr x.requestor_city)
            (.cons "document_type".data (jStr x.document_type) .nil))))))

def sectionsToJson (x : Sections) : Json :=
  .obj (.cons "question".data (jOptStr x.question)
    (.cons "conclusion".data (jOptStr x.conclusion)
      (.cons "facts".data (jOptStr x.facts)
        (.cons "analysis".data (jOptStr x.analysis)
          (.cons "question_synthetic".data (jOptStr x.question_synthetic)
            (.cons "conclusion_synthetic".data (jOptStr x.conclusion_synthetic)
              (.cons "extraction_method".data (jStr x.extraction_method)
                (.cons "extraction_confidence".data (jFloat x.extraction_confidence)
                  (.cons "has_standard_format".data (jBool x.has_standard_format)
                    (.cons "parsing_notes".data (jOptStr x.parsing_notes)
                      .nil))))))))))

def citationsToJson (x : Citations) : Json :=
  .obj (.cons "government_code".data (.arr (jStrList x.government_code))
    (.cons "regulations".data (.arr (jStrList x.regulations))
      (.cons "prior_opinions".data (.arr (jStrList x.prior_opinions))
        (.cons "cited_by".data (.arr (jStrList x.cited_by))
          (.cons "external".data (.arr (jStrList x.external)) .nil)))))

def classificationToJson (x : Classification) : Json :=
  .obj (.cons "topic_primary".data (jOptStr x.topic_primary)
    (.cons "topic_secondary".data (jOptStr x.topic_secondary)
      (.cons "topic_tags".data (.arr (jStrList x.topic_tags))
        (.cons "confidence".data (jOptFloat x.confidence)
          (.cons "classified_at".data (jOptStr x.classified_at)
            (.cons "classification_method".data
              (jOptStr x.classification_method) .nil))))))

def embeddingContentToJson (x : EmbeddingContent) : Json :=
  .obj (.cons "qa_text".data (jStr x.qa_text)
    (.cons "qa_source".data (jStr x.qa_source)
      (.cons "first_500_words".data (jStr x.first_500_words)
        (.cons "summary".data (jOptStr x.summary) .nil))))

/-- `dataclasses.asdict` on an `FPPCDocument`, in declared field order. -/
def docToJson (d : FPPCDocument) : Json :=
  .obj (.cons "id".data (jStr d.id)
    (.cons "year".data (jInt d.year)
      (.cons "pdf_url".data (jStr d.pdf_url)
        (.cons "pdf_sha256".data (jStr d.pdf_sha256)
          (.cons "local_pdf_path".data (jStr d.local_pdf_path)
            (.cons "source_metadata".data (sourceMetadataToJson d.source_metadata)
              (.cons "extraction".data (extractionInfoToJson d.extraction)
                (.cons "content".data (contentToJson d.content)
                  (.cons "parsed".data (parsedMetadataToJson d.parsed)
                    (.cons "sections".data (sectionsToJson d.sections)
                      (.cons "citations".data (citationsToJson d.citations)
                        (.cons "classification".data
                          (classificationToJson d.classification)
                          (.cons "embedding".data
                            (embeddingContentToJson d.embedding)
                            .nil)))))))))))))

/-- Dictionary lookup (keys are unique after `dedupKeys`). -/
def getKey : JsonMembers → Str → Option Json
  | .nil, _ => none
  | .cons k v rest, key => if k = key then some v else getKey rest key

/-- `Cls(**data)` rejects unexpected keyword arguments: every present key
must be an expected field name (missing fields fail at lookup). -/
def keysSubset (kvs : JsonMembers) (expected : List Str) : Bool :=
  (memberKeys kvs).all (fun k => expected.contains k)

def asStr : Json → Option Str
  | .str s => some s
  | _ => none

def asOptStr : Json → Option (Option Str)
  | .null => some none
  | .str s => some (some s)
  | _ => none

def asInt : Json → Option ℤ
  | .num m 0 => some m
  | _ => none

def asOptInt : Json → Option (Option ℤ)
  | .null => some none
  | .num m 0 => some (some m)
  | _ => none

def asFloat : Json → Option PyFloat
  | .num m s => some (m, s)
  | _ => none

def asOptFloat : Json → Option (Option PyFloat)
  | .null => some none
  | .num m s => some (some (m, s))
  | _ => none

def asBool : Json → Option Bool
  | .bool b => some b
  | _ => none

def asStrList : JsonList → Option (List Str)
  | .nil => some []
  | .cons (.str s) rest => (asStrList rest).map (fun l => s :: l)
  | .cons _ _ => none

def asArr : Json → Option (List Str)
  | .arr es => asStrList es
  | _ => none

def sourceMetadataFromJson (j : Json) : Option SourceMetadata :=
  match j with
  | .obj kvs =>
    if keysSubset kvs ["title_raw".data, "tags".data, "scraped_at".data,
        "source_page_url".data] then do
      let a ← getKey kvs "title_raw".data >>= asStr
      let b ← getKey kvs "tags".data >>= asArr
      let c ← getKey kvs "scraped_at".data >>= asStr
      let e ← getKey kvs "source_page_url".data >>= asOptStr
      pure ⟨a, b, c, e⟩
    else none
  | _ => none

def extractionInfoFromJson (j : Json) : Option ExtractionInfo :=
  match j with
  | .obj kvs =>
    if keysSubset kvs ["method".data, "extracted_at".data, "page_count".data,
        "word_count".data, "char_count".data, "quality_score".data,
        "olmocr_cost".data, "native_word_count".data] then do
      let a ← getKey kvs "method".data >>= asStr
      let b ← getKey kvs "extracted_at".data >>= asStr
      let c ← getKey kvs "page_count".data >>= asInt
      let e ← getKey kvs "word_count".data >>= asInt
      let f ← getKey kvs "char_count".data >>= asInt
      let g ← getKey kvs "quality_score".data >>= asFloat
      let h ← getKey kvs "olmocr_cost".data >>= asOptFloat
      let i ← getKey kvs "native_word_count".data >>= asOptInt
      pure ⟨a, b, c, e, f, g, h, i⟩
    else none
  | _ => none

def contentFromJson (j : Json) : Option Content :=
  match j with
  | .obj kvs =>
    if keysSubset kvs ["full_text".data, "full_text_markdown".data] then do
      let a ← getKey kvs "full_text".data >>= asStr
      let b ← getKey kvs "full_text_markdown".data >>= asOptStr
      pure ⟨a, b⟩
    else none
  | _ => none

def parsedMetadataFromJson (j : Json) : Option ParsedMetadata :=
  match j with
  | .obj kvs =>
    if keysSubset kvs ["date".data, "date_raw".data, "requestor_name".data,
        "requestor_title".data, "requestor_city".data,
        "document_type".data] then do
      let a ← getKey kvs "date".data >>= asOptStr
      let b ← getKey kvs "date_raw".data >>= asOptStr
      let c ← getKey kvs "requestor_name".data >>= asOptStr
      let e ← getKey kvs "requestor_title".data >>= asOptStr
      let f ← getKey kvs "requestor_city".data >>= asOptStr
      let g ← getKey kvs "document_type".data >>= asStr
      pure ⟨a, b, c, e, f, g⟩
    else none
  | _ => none

def sectionsFromJson (j : Json) : Option Sections :=
  match j with
  | .obj kvs =>
    if keysSubset kvs ["question".data, "conclusion".data, "facts".data,
        "analysis".data, "question_synthetic".data,
        "conclusion_synthetic".data, "extraction_method".data,
        "extraction_confidence".data, "has_standard_format".data,
        "parsing_notes".data] then do
      let a ← getKey kvs "question".data >>= asOptStr
      let b ← getKey kvs "conclusion".data >>= asOptStr
      let c ← getKey kvs "facts".data >>= asOptStr
      let e ← getKey kvs "analysis".data >>= asOptStr
      let f ← getKey kvs "question_synthetic".data >>= asOptStr
      let g ← getKey kvs "conclusion_synthetic".data >>= asOptStr
      let h ← getKey kvs "extraction_method".data >>= asStr
      let i ← getKey kvs "extraction_confidence".data >>= asFloat
      let k ← getKey kvs "has_standard_format".data >>= asBool
      let l ← getKey kvs "parsing_notes".data >>= asOptStr
      pure ⟨a, b, c, e, f, g, h, i, k, l⟩
    else none
  | _ => none

def citationsFromJson (j : Json) : Option Citations :=
  match j with
  | .obj kvs =>
    if keysSubset kvs ["government_code".data, "regulations".data,
        "prior_opinions".data, "cited_by".data, "external".data] then do
      let a ← getKey kvs "government_code".data >>= asArr
      let b ← getKey kvs "regulations".data >>= asArr
      let c ← getKey kvs "prior_opinions".data >>= asArr
      let e ← getKey kvs "cited_by".data >>= asArr
      let f ← getKey kvs "external".data >>= asArr
      pure ⟨a, b, c, e, f⟩
    else none
  | _ => none

def classificationFromJson (j : Json) : Option Classification :=
  match j with
  | .obj kvs =>
    if keysSubset kvs ["topic_primary".data, "topic_secondary".data,
        "topic_tags".data, "confidence".data, "classified_at".data,
        "classification_method".data] then do
      let a ← getKey kvs "topic_primary".data >>= asOptStr
      let b ← getKey kvs "topic_secondary".data >>= asOptStr
      let c ← getKey kvs "topic_tags".data >>= asArr
      let e ← getKey kvs "confidence".data >>= asOptFloat
      let f ← getKey kvs "classified_at".data >>= asOptStr
      let g ← getKey kvs "classification_method".data >>= asOptStr
      pure ⟨a, b, c, e, f, g⟩
    else none
  | _ => none

def embeddingContentFromJson (j : Json) : Option EmbeddingContent :=
  match j with
  | .obj kvs =>
    if keysSubset kvs ["qa_text".data, "qa_source".data,
        "first_500_words".data, "summary".data] then do
      let a ← getKey kvs "qa_text".data >>= asStr
      let b ← getKey kvs "qa_source".data >>= asStr
      let c ← getKey kvs "first_500_words".data >>= asStr
      let e ← getKey kvs "summary".data >>= asOptStr
      pure ⟨a, b, c, e⟩
    else none
  | _ => none

/-- The body of `from_json` after `json.loads` (`schema.py:205-219`):
top-level fields are read by subscript (extra top-level keys are ignored),
nested dataclasses are rebuilt by strict keyword construction. -/
def docFromJsonVal (j : Json) : Option FPPCDocument :=
  match j with
  | .obj kvs => do
    let i ← getKey kvs "id".data >>= asStr
    let y ← getKey kvs "year".data >>= asInt
    let u ← getKey kvs "pdf_url".data >>= asStr
    let h ← getKey kvs "pdf_sha256".data >>= asStr
    let l ← getKey kvs "local_pdf_path".data >>= asStr
    let sm ← getKey kvs "source_metadata".data >>= sourceMetadataFromJson
    let ex ← getKey kvs "extraction".data >>= extractionInfoFromJson
    let co ← getKey kvs "content".data >>= contentFromJson
    let pa ← getKey kvs "parsed".data >>= parsedMetadataFromJson
    let se ← getKey kvs "sections".data >>= sectionsFromJson
    let ci ← getKey kvs "citations".data >>= citationsFromJson
    let cl ← getKey kvs "classification".data >>= classificationFromJson
    let em ← getKey kvs "embedding".data >>= embeddingContentFromJson
    pure ⟨i, y, u, h, l, sm, ex, co, pa, se, ci, cl, em⟩
  | _ => none

/-- `to_json` (`schema.py:173-184`): `json.dumps(asdict(doc), indent=2,
ensure_ascii=False)`. -/
def to_json (d : FPPCDocument) : Str := renderJson (docToJson d)

/-- `from_json` (`schema.py:187-219`): `json.loads` then dataclass
reconstruction; `none` models the raised decode/Key/Type errors. -/
def from_json (s : Str) : Option FPPCDocument :=
  (pyLoads s).bind docFromJsonVal

end FppcScrape


namespace FppcScrape

/-- The citation count the spec's C3 sentence divides by: references whose
base section falls in one of the three named topic bands (`other`
excluded).  Spec-modelled: this definition follows the claim's words, not
the code. -/
def specBandCountC3 (refs : List Str) : Nat :=
  (parsedSections refs).countP (fun n => classifySection n ≠ "other")

/-- Era adjustment shared by the spec-side readings of the C6 sentence:
2010 and newer gains 0.05 (capped at 1), the 2000s are neutral, 1985-1999
loses 0.05 and anything older loses 0.15 (floored at 0). -/
def eraAdjustSpecC6 (base : ℚ) : Option Int → ℚ
  | none => base
  | some y =>
    if y ≥ 2010 then min (base + 1/20) 1
    else if y ≥ 2000 then base
    else if y ≥ 1985 then max (base - 1/20) 0
    else max (base - 3/20) 0

/-- The confidence formula exactly as the C6 sentence states it: a base
determined solely by which sections were found (question and conclusion
0.9, exactly one of them 0.6, analysis-or-facts only 0.4, none 0), era
adjusted, minus 0.1 per validation issue, clamped to `[0, 1]`.
Spec-modelled: this definition follows the claim's words, not the code. -/
def confidenceSpecC6 (extracted : List String) (issueCount : Nat)
    (year : Option Int) : ℚ :=
  let base : ℚ :=
    if "question" ∈ extracted ∧ "conclusion" ∈ extracted then 9/10
    else if "question" ∈ extracted ∨ "conclusion" ∈ extracted then 6/10
    else if "analysis" ∈ extracted ∨ "facts" ∈ extracted then 4/10
    else 0
  max 0 (min 1 (eraAdjustSpecC6 base year - (1/10) * (issueCount : ℚ)))

/-- The amended C6 base: as `confidenceSpecC6`, except that finding all
four canonical sections raises the question-and-conclusion base from 0.9
to 0.95.  Spec-modelled: written from the amended claim wording. -/
def confidenceSpecC6Amended (extracted : List String) (issueCount : Nat)
    (year : Option Int) : ℚ :=
  let base : ℚ :=
    if "question" ∈ extracted ∧ "conclusion" ∈ extracted then
      (if "analysis" ∈ extracted ∧ "facts" ∈ extracted then 19/20 else 9/10)
    else if "question" ∈ extracted ∨ "conclusion" ∈ extracted then 6/10
    else if "analysis" ∈ extracted ∨ "facts" ∈ extracted then 4/10
    else 0
  max 0 (min 1 (eraAdjustSpecC6 base year - (1/10) * (issueCount : ℚ)))

/-- Number of document-genre markers present in a text (date pattern,
agency self-mention, at least two canonical section headers).
Spec-modelled: written from the amended C9 wording. -/
def markersPresentC9 (text : Str) : Nat :=
  (if hasDatePattern text then 1 else 0) +
  (if hasFppcMention (upperStr text) then 1 else 0) +
  (if 2 ≤ sectionHeaderCount (upperStr text) then 1 else 0)

end FppcScrape

namespace FppcScrape

/-! ### List scanning helpers -/

theorem takeWhileAppendAll (p : Char → Bool) (l r : Str)
    (h : ∀ c ∈ l, p c = true) :
    (l ++ r).takeWhile p = l ++ r.takeWhile p := by
  induction l with
  | nil => simp
  | cons c t ih =>
    have hc : p c = true := h c (List.mem_cons_self c t)
    simp [List.takeWhile, hc, ih (fun d hd => h d (List.mem_cons_of_mem c hd))]

theorem dropWhileAppendAll (p : Char → Bool) (l r : Str)
    (h : ∀ c ∈ l, p c = true) :
    (l ++ r).dropWhile p = r.dropWhile p := by
  induction l with
  | nil => simp
  | cons c t ih =>
    have hc : p c = true := h c (List.mem_cons_self c t)
    simp [List.dropWhile, hc, ih (fun d hd => h d (List.mem_cons_of_mem c hd))]

theorem takeWhileNotHead (p : Char → Bool) (r : Str)
    (h : ∀ c, r.head? = some c → p c = false) :
    r.takeWhile p = [] := by
  cases r with
  | nil => rfl
  | cons c t => simp [List.takeWhile, h c rfl]

theorem dropWhileNotHead (p : Char → Bool) (r : Str)
    (h : ∀ c, r.head? = some c → p c = false) :
    r.dropWhile p = r := by
  cases r with
  | nil => rfl
  | cons c t => simp [List.dropWhile, h c rfl]

theorem isPrefixOfAppendSelf (l t : Str) : l.isPrefixOf (l ++ t) = true := by
  induction l with
  | nil => simp [List.isPrefixOf]
  | cons c r ih => simp [List.isPrefixOf, ih]

/-! ### Decimal digits -/

theorem digitsToNat_append_one (l : Str) (c : Char) :
    digitsToNat (l ++ [c]) = digitsToNat l * 10 + (c.toNat - 48) := by
  simp [digitsToNat, List.foldl_append]

theorem toNat_ofNat48 (n : Nat) (h : n < 10) :
    (Char.ofNat (48 + n)).toNat = 48 + n := by
  interval_cases n <;> decide

theorem isDigit_ofNat48 (n : Nat) (h : n < 10) :
    (Char.ofNat (48 + n)).isDigit = true := by
  interval_cases n <;> decide

theorem natToDigits_all_digit (n : Nat) :
    ∀ c ∈ natToDigits n, c.isDigit = true := by
  induction n using Nat.strong_induction_on with
  | _ n ih =>
    rw [natToDigits]
    split
    · intro c hc
      simp at hc
      subst hc
      exact isDigit_ofNat48 n (by omega)
    · intro c hc
      rcases List.mem_append.mp hc with h1 | h2
      · exact ih (n / 10) (Nat.div_lt_self (by omega) (by omega)) c h1
      · simp at h2
        subst h2
        exact isDigit_ofNat48 (n % 10) (Nat.mod_lt _ (by omega))

theorem natToDigits_ne_nil (n : Nat) : natToDigits n ≠ [] := by
  rw [natToDigits]
  split <;> simp

theorem digitsToNat_natToDigits (n : Nat) :
    digitsToNat (natToDigits n) = n := by
  induction n using Nat.strong_induction_on with
  | _ n ih =>
    rw [natToDigits]
    split
    · next h =>
      simp [digitsToNat, List.foldl, toNat_ofNat48 n h]
    · next h =>
      rw [digitsToNat_append_one, ih (n / 10) (Nat.div_lt_self (by omega) (by omega)),
        toNat_ofNat48 (n % 10) (Nat.mod_lt _ (by omega))]
      omega

theorem digitsToNat_replicate_zero (k : Nat) (ds : Str) :
    digitsToNat (List.replicate k '0' ++ ds) = digitsToNat ds := by
  induction k with
  | zero => simp
  | succ k ih =>
    have : List.replicate (k + 1) '0' ++ ds = '0' :: (List.replicate k '0' ++ ds) := by
      simp [List.replicate_succ]
    rw [this]
    simpa [digitsToNat, List.foldl] using ih

end FppcScrape

namespace FppcScrape

theorem numRestSafe_head (rest : Str) (h : numRestSafe rest = true) :
    ∀ c, rest.head? = some c →
      c.isDigit = false ∧ c ≠ '.' ∧ c ≠ 'e' ∧ c ≠ 'E' := by
  cases rest with
  | nil => intro c hc; simp at hc
  | cons c t =>
    intro c2 hc2
    simp at hc2
    subst hc2
    simp [numRestSafe] at h
    refine ⟨by tauto, by tauto, by tauto, by tauto⟩

theorem takeWhile_digit_safe (rest : Str) (h : numRestSafe rest = true) :
    rest.takeWhile Char.isDigit = [] := by
  apply takeWhileNotHead
  intro c hc
  exact (numRestSafe_head rest h c hc).1

theorem dropWhile_digit_safe (rest : Str) (h : numRestSafe rest = true) :
    rest.dropWhile Char.isDigit = rest := by
  apply dropWhileNotHead
  intro c hc
  exact (numRestSafe_head rest h c hc).1

theorem head_not_e_safe (rest : Str) (h : numRestSafe rest = true) :
    ¬ (rest.head? = some 'e' ∨ rest.head? = some 'E') := by
  rintro (hc | hc) <;> have := numRestSafe_head rest h _ hc <;> simp at this

theorem head_not_dot_safe (rest : Str) (h : numRestSafe rest = true) :
    ¬ rest.head? = some '.' := by
  intro hc
  have := numRestSafe_head rest h _ hc
  simp at this

/-- `parseUnsignedNum` on a rendered integer digit run. -/
theorem parseUnsignedNum_int (d rest : Str) (hne : d ≠ [])
    (hall : ∀ c ∈ d, c.isDigit = true) (hsafe : numRestSafe rest = true) :
    parseUnsignedNum (d ++ rest) = some (((digitsToNat d : ℤ), 0), rest) := by
  have ht : (d ++ rest).takeWhile Char.isDigit = d := by
    rw [takeWhileAppendAll Char.isDigit d rest hall, takeWhile_digit_safe rest hsafe,
      List.append_nil]
  have hd : (d ++ rest).dropWhile Char.isDigit = rest := by
    rw [dropWhileAppendAll Char.isDigit d rest hall, dropWhile_digit_safe rest hsafe]
  simp only [parseUnsignedNum, ht, hd]
  rw [if_neg hne, if_neg (head_not_dot_safe rest hsafe),
    if_neg (head_not_e_safe rest hsafe)]

/-- `parseUnsignedNum` on a rendered decimal `D1.D2`. -/
theorem parseUnsignedNum_frac (d1 d2 rest : Str) (h1 : d1 ≠ []) (h2 : d2 ≠ [])
    (ha1 : ∀ c ∈ d1, c.isDigit = true) (ha2 : ∀ c ∈ d2, c.isDigit = true)
    (hsafe : numRestSafe rest = true) :
    parseUnsignedNum (d1 ++ '.' :: (d2 ++ rest)) =
      some (((digitsToNat (d1 ++ d2) : ℤ), d2.length), rest) := by
  have hdot : ∀ c, ('.' :: (d2 ++ rest)).head? = some c → Char.isDigit c = false := by
    intro c hc
    simp at hc
    subst hc
    decide
  have ht : (d1 ++ '.' :: (d2 ++ rest)).takeWhile Char.isDigit = d1 := by
    rw [takeWhileAppendAll Char.isDigit d1 _ ha1, takeWhileNotHead _ _ hdot,
      List.append_nil]
  have hd : (d1 ++ '.' :: (d2 ++ rest)).dropWhile Char.isDigit = '.' :: (d2 ++ rest) := by
    rw [dropWhileAppendAll Char.isDigit d1 _ ha1, dropWhileNotHead _ _ hdot]
  have ht2 : (d2 ++ rest).takeWhile Char.isDigit = d2 := by
    rw [takeWhileAppendAll Char.isDigit d2 rest ha2, takeWhile_digit_safe rest hsafe,
      List.append_nil]
  have hd2 : (d2 ++ rest).dropWhile Char.isDigit = rest := by
    rw [dropWhileAppendAll Char.isDigit d2 rest ha2, dropWhile_digit_safe rest hsafe]
  simp only [parseUnsignedNum, ht, hd, List.head?_cons, List.tail_cons, ht2, hd2]
  rw [if_neg h1, if_pos trivial, if_neg h2, if_neg (head_not_e_safe rest hsafe)]

end FppcScrape

namespace FppcScrape

theorem head_not_dash_of_digit (d rest : Str) (hne : d ≠ [])
    (hall : ∀ c ∈ d, c.isDigit = true) :
    ¬ (d ++ rest).head? = some '-' := by
  cases d with
  | nil => exact absurd rfl hne
  | cons c t =>
    intro hc
    simp at hc
    have := hall c (List.mem_cons_self c t)
    rw [hc] at this
    simp at this

/-- `parseNum` recovers exactly the rendered number. -/
theorem parseNum_renderNum (m : ℤ) (s : ℕ) (rest : Str)
    (hsafe : numRestSafe rest = true) :
    parseNum (renderNum m s ++ rest) = some ((m, s), rest) := by
  have hrawne := natToDigits_ne_nil m.natAbs
  have hrawall := natToDigits_all_digit m.natAbs
  have hrawlen : (natToDigits m.natAbs).length ≥ 1 := by
    cases h : natToDigits m.natAbs with
    | nil => exact absurd h hrawne
    | cons c t => simp
  obtain ⟨ds, hds⟩ : ∃ ds : Str,
      List.replicate (s + 1 - (natToDigits m.natAbs).length) '0' ++
        natToDigits m.natAbs = ds := ⟨_, rfl⟩
  have hdsall : ∀ c ∈ ds, c.isDigit = true := by
    intro c hc
    rw [← hds] at hc
    rcases List.mem_append.mp hc with h1 | h2
    · have := List.eq_of_mem_replicate h1
      subst this
      decide
    · exact hrawall c h2
  have hdsne : ds ≠ [] := by
    rw [← hds]
    intro h
    rcases List.append_eq_nil.mp h with ⟨-, h2⟩
    exact hrawne h2
  have hdslen : ds.length ≥ s + 1 := by
    rw [← hds]
    simp [List.length_append, List.length_replicate]
    omega
  have hdsval : digitsToNat ds = m.natAbs := by
    rw [← hds, digitsToNat_replicate_zero, digitsToNat_natToDigits]
  by_cases hs : s = 0
  · subst hs
    by_cases hm : m < 0
    · have hrender : renderNum m 0 = '-' :: ds := by
        simp [renderNum, hds, hm]
      rw [hrender]
      simp only [parseNum, List.cons_append, List.head?_cons, List.tail_cons,
        if_pos rfl]
      rw [parseUnsignedNum_int ds rest hdsne hdsall hsafe]
      rw [Option.map_some']
      have : -(digitsToNat ds : ℤ) = m := by rw [hdsval]; omega
      simp [this]
    · have hrender : renderNum m 0 = ds := by
        simp [renderNum, hds, hm]
      rw [hrender]
      simp only [parseNum]
      rw [if_neg (head_not_dash_of_digit ds rest hdsne hdsall)]
      rw [parseUnsignedNum_int ds rest hdsne hdsall hsafe]
      have : (digitsToNat ds : ℤ) = m := by rw [hdsval]; omega
      simp [this]
  · obtain ⟨d1, hd1⟩ : ∃ d1 : Str, ds.take (ds.length - s) = d1 := ⟨_, rfl⟩
    obtain ⟨d2, hd2⟩ : ∃ d2 : Str, ds.drop (ds.length - s) = d2 := ⟨_, rfl⟩
    have hd1len : d1.length = ds.length - s := by
      rw [← hd1, List.length_take]
      omega
    have hd2len : d2.length = s := by
      rw [← hd2, List.length_drop]
      omega
    have hd1ne : d1 ≠ [] := by
      intro h
      rw [h] at hd1len
      simp at hd1len
      omega
    have hd2ne : d2 ≠ [] := by
      intro h
      rw [h] at hd2len
      simp at hd2len
      omega
    have hd1all : ∀ c ∈ d1, c.isDigit = true := by
      intro c hc
      rw [← hd1] at hc
      exact hdsall c (List.take_subset _ _ hc)
    have hd2all : ∀ c ∈ d2, c.isDigit = true := by
      intro c hc
      rw [← hd2] at hc
      exact hdsall c (List.drop_subset _ _ hc)
    have hsplit : d1 ++ d2 = ds := by
      rw [← hd1, ← hd2]
      exact List.take_append_drop _ _
    by_cases hm : m < 0
    · have hrender : renderNum m s = '-' :: (d1 ++ '.' :: d2) := by
        simp [renderNum, hds, hd1, hd2, hm, hs]
      rw [hrender]
      have hassoc : (('-' :: (d1 ++ '.' :: d2)) ++ rest) =
          '-' :: (d1 ++ '.' :: (d2 ++ rest)) := by simp
      rw [hassoc]
      simp only [parseNum, List.head?_cons, List.tail_cons, if_pos rfl]
      rw [parseUnsignedNum_frac d1 d2 rest hd1ne hd2ne hd1all hd2all hsafe]
      rw [Option.map_some']
      have : -(digitsToNat (d1 ++ d2) : ℤ) = m := by
        rw [hsplit, hdsval]; omega
      simp [this, hd2len]
    · have hrender : renderNum m s = d1 ++ '.' :: d2 := by
        simp [renderNum, hds, hd1, hd2, hm, hs]
      rw [hrender]
      have hassoc : ((d1 ++ '.' :: d2) ++ rest) = d1 ++ '.' :: (d2 ++ rest) := by
        simp
      rw [hassoc]
      have hhead : ¬ (d1 ++ '.' :: (d2 ++ rest)).head? = some '-' := by
        cases d1 with
        | nil => exact absurd rfl hd1ne
        | cons c t =>
          intro hc
          simp at hc
          have := hd1all c (List.mem_cons_self c t)
          rw [hc] at this
          simp at this
      simp only [parseNum]
      rw [if_neg hhead]
      rw [parseUnsignedNum_frac d1 d2 rest hd1ne hd2ne hd1all hd2all hsafe]
      have : (digitsToNat (d1 ++ d2) : ℤ) = m := by
        rw [hsplit, hdsval]; omega
      simp [this, hd2len]

end FppcScrape

namespace FppcScrape

theorem hexVal_hexDigitChar (k : Nat) (h : k < 16) :
    hexVal (hexDigitChar k) = some k := by
  interval_cases k <;> decide

theorem charToNat_isValidChar (c : Char) : c.toNat.isValidChar := c.valid

theorem ofNatAux_toNat (c : Char) (h : c.toNat.isValidChar) :
    Char.ofNatAux c.toNat h = c := by
  cases c with
  | mk v hv =>
    apply Char.ext
    apply UInt32.ext
    simp [Char.ofNatAux, Char.toNat, UInt32.toNat, BitVec.toNat_ofNatLt]

theorem escapeStr_cons (c : Char) (t : Str) :
    escapeStr (c :: t) = escapeChar c ++ escapeStr t := by
  simp [escapeStr]

theorem parseStringBody_escape (s rest : Str) :
    parseStringBody (escapeStr s ++ ('"' :: rest)) = some (s, rest) := by
  induction s with
  | nil => simp [escapeStr, parseStringBody]
  | cons c t ih =>
    rw [escapeStr_cons, List.append_assoc]
    by_cases h1 : c = '"'
    · subst h1
      simp [escapeChar, parseStringBody, parseEscape, simpleEscape, ih]
    · by_cases h2 : c = '\\'
      · subst h2
        simp [escapeChar, parseStringBody, parseEscape, simpleEscape, ih]
      · by_cases h3 : c = '\n'
        · subst h3
          simp [escapeChar, parseStringBody, parseEscape, simpleEscape, ih]
        · by_cases h4 : c = '\t'
          · subst h4
            simp [escapeChar, parseStringBody, parseEscape, simpleEscape, ih]
          · by_cases h5 : c = '\r'
            · subst h5
              simp [escapeChar, parseStringBody, parseEscape, simpleEscape, ih]
            · by_cases h6 : c = '\x08'
              · subst h6
                simp [escapeChar, parseStringBody, parseEscape, simpleEscape, ih]
              · by_cases h7 : c = '\x0c'
                · subst h7
                  simp [escapeChar, parseStringBody, parseEscape, simpleEscape, ih]
                · by_cases h8 : c.toNat < 32
                  · have hesc : escapeChar c = ['\\', 'u', '0', '0',
                        hexDigitChar (c.toNat / 16), hexDigitChar (c.toNat % 16)] := by
                      simp [escapeChar, h1, h2, h3, h4, h5, h6, h7, h8]
                    rw [hesc]
                    have hv1 : hexVal (hexDigitChar (c.toNat / 16)) =
                        some (c.toNat / 16) := hexVal_hexDigitChar _ (by omega)
                    have hv2 : hexVal (hexDigitChar (c.toNat % 16)) =
                        some (c.toNat % 16) := hexVal_hexDigitChar _ (by omega)
                    simp only [List.cons_append, List.nil_append]
                    simp [parseStringBody, parseEscape, hv1, hv2,
                      show hexVal '0' = some 0 from by decide]
                    refine ⟨ih, ?_⟩
                    have hcode : c.toNat / 16 * 16 + c.toNat % 16 = c.toNat := by
                      omega
                    simp only [hcode]
                    exact ⟨charToNat_isValidChar c,
                      ofNatAux_toNat c (charToNat_isValidChar c)⟩
                  · have hesc : escapeChar c = [c] := by
                      simp [escapeChar, h1, h2, h3, h4, h5, h6, h7, h8]
                    rw [hesc]
                    simp only [List.cons_append, List.nil_append, parseStringBody]
                    rw [if_neg h1, if_neg h2, if_neg (by omega : ¬ c.toNat < 32)]
                    rw [show ([] : Str).append (escapeStr t ++ '"' :: rest) =
                      escapeStr t ++ '"' :: rest from rfl, ih]
                    rfl

end FppcScrape

namespace FppcScrape

/-! ### Whitespace-skipping helpers -/

theorem skipJWs_append_ws (w s : Str) (h : ∀ c ∈ w, isJsonWs c = true) :
    skipJWs (w ++ s) = skipJWs s := by
  simp only [skipJWs]
  exact dropWhileAppendAll isJsonWs w s h

theorem skipJWs_not_head (s : Str)
    (h : ∀ c, s.head? = some c → isJsonWs c = false) : skipJWs s = s :=
  dropWhileNotHead isJsonWs s h

theorem jIndent_ws (lvl : Nat) : ∀ c ∈ jIndent lvl, isJsonWs c = true := by
  intro c hc
  have := List.eq_of_mem_replicate hc
  subst this
  decide

theorem parseVal_ws (fuel : Nat) (w s : Str)
    (h : ∀ c ∈ w, isJsonWs c = true) :
    parseVal fuel (w ++ s) = parseVal fuel s := by
  cases fuel with
  | zero => rfl
  | succ f => simp only [parseVal, skipJWs_append_ws w s h]

theorem parseVal_cons (f : Nat) (c : Char) (r : Str) (h : isJsonWs c = false) :
    parseVal (f + 1) (c :: r) = parseValHead f c r := by
  simp only [parseVal]
  rw [skipJWs_not_head (c :: r) (by intro d hd; simp at hd; rw [← hd]; exact h)]
  rfl

theorem parseValHead_lbrack (f : Nat) (r : Str) :
    parseValHead f '[' r =
      match skipJWs r with
      | ']' :: r2 => some (.arr .nil, r2)
      | r1 => (parseElems f r1).map (fun p => (.arr p.1, p.2)) := by
  simp [parseValHead]

theorem parseValHead_lbrace (f : Nat) (r : Str) :
    parseValHead f '\x7b' r =
      match skipJWs r with
      | '\x7d' :: r2 => some (.obj .nil, r2)
      | r1 => (parseMembers f r1).map (fun p => (.obj (dedupKeys p.1), p.2)) := by
  simp [parseValHead]

theorem parseElems_ws (fuel : Nat) (w s : Str)
    (h : ∀ c ∈ w, isJsonWs c = true) :
    parseElems fuel (w ++ s) = parseElems fuel s := by
  cases fuel with
  | zero => rfl
  | succ f => simp only [parseElems, parseVal_ws f w s h]

theorem parseMembers_ws (fuel : Nat) (w s : Str)
    (h : ∀ c ∈ w, isJsonWs c = true) :
    parseMembers fuel (w ++ s) = parseMembers fuel s := by
  cases fuel with
  | zero => rfl
  | succ f => simp only [parseMembers, skipJWs_append_ws w s h]

/-- `\n` followed by indentation is all-whitespace. -/
theorem nl_indent_ws (lvl : Nat) : ∀ c ∈ '\n' :: jIndent lvl, isJsonWs c = true := by
  intro c hc
  simp only [List.mem_cons] at hc
  rcases hc with rfl | hmem
  · decide
  · exact jIndent_ws lvl c hmem

theorem numSafeB_cons (v : Json) (c : Char) (x : Str)
    (hc : c.isDigit = false) (hd : c ≠ '.') (he : c ≠ 'e') (hE : c ≠ 'E') :
    numSafeB v (c :: x) = true := by
  cases v <;> simp [numSafeB, numRestSafe, hc, hd, he, hE]

/-! ### `dedupKeys` is the identity on duplicate-free member lists -/

theorem lastVal_not_mem (k : Str) (v : Json) :
    ∀ rest : JsonMembers, (k ∉ memberKeys rest) → lastVal k v rest = v
  | .nil, _ => rfl
  | .cons k2 v2 rest, h => by
    have hne : k2 ≠ k := by
      intro hk
      exact h (by simp [memberKeys, hk])
    have hnot : k ∉ memberKeys rest := by
      intro hk
      exact h (by simp [memberKeys, hk])
    simp only [lastVal, if_neg hne]
    exact lastVal_not_mem k v rest hnot

theorem removeKey_not_mem (k : Str) :
    ∀ rest : JsonMembers, (k ∉ memberKeys rest) → removeKey k rest = rest
  | .nil, _ => rfl
  | .cons k2 v2 rest, h => by
    have hne : k2 ≠ k := by
      intro hk
      exact h (by simp [memberKeys, hk])
    have hnot : k ∉ memberKeys rest := by
      intro hk
      exact h (by simp [memberKeys, hk])
    simp only [removeKey, if_neg hne]
    rw [removeKey_not_mem k rest hnot]

theorem dedupKeys_self :
    ∀ kvs : JsonMembers, nodupKeys (memberKeys kvs) = true → dedupKeys kvs = kvs
  | .nil, _ => by rw [dedupKeys]
  | .cons k v rest, h => by
    simp only [memberKeys, nodupKeys, Bool.and_eq_true, decide_eq_true_eq] at h
    rw [dedupKeys, lastVal_not_mem k v rest h.1, removeKey_not_mem k rest h.1,
      dedupKeys_self rest h.2]

end FppcScrape

namespace FppcScrape

theorem digit_not_jws (c : Char) (h : c.isDigit = true) : isJsonWs c = false := by
  simp only [isJsonWs]
  have h0 : c ≠ ' ' := by rintro rfl; simp at h
  have h1 : c ≠ '\t' := by rintro rfl; simp at h
  have h2 : c ≠ '\n' := by rintro rfl; simp at h
  have h3 : c ≠ '\r' := by rintro rfl; simp at h
  simp [h0, h1, h2, h3]

theorem digit_ne (c d : Char) (h : c.isDigit = true) (hd : d.isDigit = false) :
    c ≠ d := by
  rintro rfl
  rw [h] at hd
  exact Bool.noConfusion hd

theorem renderNum_head (m : ℤ) (s : ℕ) :
    ∃ c t, renderNum m s = c :: t ∧ (c = '-' ∨ c.isDigit = true) := by
  have hrawne := natToDigits_ne_nil m.natAbs
  have hrawall := natToDigits_all_digit m.natAbs
  obtain ⟨ds, hds⟩ : ∃ ds : Str,
      List.replicate (s + 1 - (natToDigits m.natAbs).length) '0' ++
        natToDigits m.natAbs = ds := ⟨_, rfl⟩
  have hdsall : ∀ c ∈ ds, c.isDigit = true := by
    intro c hc
    rw [← hds] at hc
    rcases List.mem_append.mp hc with h1 | h2
    · have := List.eq_of_mem_replicate h1
      subst this
      decide
    · exact hrawall c h2
  have hdsne : ds ≠ [] := by
    rw [← hds]
    intro h
    rcases List.append_eq_nil.mp h with ⟨-, h2⟩
    exact hrawne h2
  have hdslen : ds.length ≥ s + 1 := by
    rw [← hds]
    have : (natToDigits m.natAbs).length ≥ 1 := by
      cases h : natToDigits m.natAbs with
      | nil => exact absurd h hrawne
      | cons c t => simp
    simp [List.length_append, List.length_replicate]
    omega
  by_cases hm : m < 0
  · by_cases hs : s = 0
    · subst hs
      have hr : renderNum m 0 = '-' :: ds := by simp [renderNum, hds, hm]
      exact ⟨'-', ds, hr, Or.inl rfl⟩
    · have hr : renderNum m s = '-' ::
          (ds.take (ds.length - s) ++ '.' :: ds.drop (ds.length - s)) := by
        simp [renderNum, hds, hm, hs]
      exact ⟨'-', _, hr, Or.inl rfl⟩
  · obtain ⟨c0, t0, hct⟩ : ∃ c0 t0, ds = c0 :: t0 := by
      cases ds with
      | nil => exact absurd rfl hdsne
      | cons a b => exact ⟨a, b, rfl⟩
    have hc0 : c0.isDigit = true := hdsall c0 (by simp [hct])
    by_cases hs : s = 0
    · subst hs
      have hr : renderNum m 0 = c0 :: t0 := by simp [renderNum, hds, hm, hct]
      exact ⟨c0, t0, hr, Or.inr hc0⟩
    · obtain ⟨n, hn⟩ : ∃ n, ds.length - s = n + 1 := ⟨ds.length - s - 1, by omega⟩
      have htake : ds.take (ds.length - s) = c0 :: t0.take n := by
        rw [hn, hct, List.take_succ_cons]
      have hr : renderNum m s = c0 :: (t0.take n ++
          '.' :: ds.drop (ds.length - s)) := by
        simp [renderNum, hds, hm, hs, htake]
      exact ⟨c0, _, hr, Or.inr hc0⟩

end FppcScrape

namespace FppcScrape

theorem renderAt_null (lvl : Nat) : renderAt lvl .null = ['n', 'u', 'l', 'l'] := rfl

theorem parseVal_render_null (lvl : Nat) (rest : Str) (f : Nat) :
    parseVal (f + 1) (renderAt lvl .null ++ rest) = some (.null, rest) := by
  rw [renderAt_null]
  have hp : ['u', 'l', 'l'] <+: 'u' :: 'l' :: 'l' :: rest := ⟨rest, rfl⟩
  simp [parseVal, parseValHead, skipJWs, List.dropWhile, isJsonWs, hp]

theorem parseVal_render_true (lvl : Nat) (rest : Str) (f : Nat) :
    parseVal (f + 1) (renderAt lvl (.bool true) ++ rest) = some (.bool true, rest) := by
  have hr : renderAt lvl (.bool true) = ['t', 'r', 'u', 'e'] := rfl
  rw [hr]
  have hp : ['r', 'u', 'e'] <+: 'r' :: 'u' :: 'e' :: rest := ⟨rest, rfl⟩
  simp [parseVal, parseValHead, skipJWs, List.dropWhile, isJsonWs, hp]

theorem parseVal_render_false (lvl : Nat) (rest : Str) (f : Nat) :
    parseVal (f + 1) (renderAt lvl (.bool false) ++ rest) = some (.bool false, rest) := by
  have hr : renderAt lvl (.bool false) = ['f', 'a', 'l', 's', 'e'] := rfl
  rw [hr]
  have hp : ['a', 'l', 's', 'e'] <+: 'a' :: 'l' :: 's' :: 'e' :: rest := ⟨rest, rfl⟩
  simp [parseVal, parseValHead, skipJWs, List.dropWhile, isJsonWs, hp]

theorem parseVal_render_str (sv : Str) (lvl : Nat) (rest : Str) (f : Nat) :
    parseVal (f + 1) (renderAt lvl (.str sv) ++ rest) = some (.str sv, rest) := by
  have hr : renderAt lvl (.str sv) = '"' :: (escapeStr sv ++ ['"']) := rfl
  rw [hr]
  have hassoc : ('"' :: (escapeStr sv ++ ['"'])) ++ rest =
      '"' :: (escapeStr sv ++ ('"' :: rest)) := by simp
  rw [hassoc]
  simp [parseVal, parseValHead, skipJWs, List.dropWhile, isJsonWs, parseStringBody_escape]

theorem parseVal_render_num (m : ℤ) (sc : ℕ) (lvl : Nat) (rest : Str) (f : Nat)
    (hsafe : numRestSafe rest = true) :
    parseVal (f + 1) (renderAt lvl (.num m sc) ++ rest) = some (.num m sc, rest) := by
  have hr : renderAt lvl (.num m sc) = renderNum m sc := rfl
  rw [hr]
  obtain ⟨c, t, hct, hc⟩ := renderNum_head m sc
  have hnum := parseNum_renderNum m sc rest hsafe
  rw [hct] at hnum ⊢
  have hnws : isJsonWs c = false := by
    rcases hc with rfl | hdig
    · decide
    · exact digit_not_jws c hdig
  have hne : ∀ d : Char, d.isDigit = false → d ≠ '-' → c ≠ d := by
    intro d hd hdm
    rcases hc with rfl | hdig
    · exact fun h => hdm h.symm
    · exact digit_ne c d hdig hd
  have hskip : skipJWs (c :: (t ++ rest)) = c :: (t ++ rest) := by
    apply skipJWs_not_head
    intro d hd
    simp at hd
    rw [← hd]
    exact hnws
  simp only [List.cons_append] at hnum ⊢
  rw [parseVal_cons f c _ hnws]
  simp only [parseValHead]
  rw [if_neg (hne 'n' (by decide) (by decide)),
    if_neg (hne 't' (by decide) (by decide)),
    if_neg (hne 'f' (by decide) (by decide)),
    if_neg (hne '"' (by decide) (by decide)),
    if_neg (hne '{' (by decide) (by decide)),
    if_neg (hne '[' (by decide) (by decide)),
    if_pos hc, hnum]
  rfl

end FppcScrape

namespace FppcScrape

theorem renderAt_head (lvl : Nat) (v : Json) :
    ∃ c t, renderAt lvl v = c :: t ∧ isJsonWs c = false ∧
      c ≠ ']' ∧ c ≠ '\x7d' := by
  cases v with
  | null =>
    refine ⟨'n', _, rfl, ?_, ?_, ?_⟩ <;> decide
  | bool b =>
    cases b with
    | true => refine ⟨'t', _, rfl, ?_, ?_, ?_⟩ <;> decide
    | false => refine ⟨'f', _, rfl, ?_, ?_, ?_⟩ <;> decide
  | num m sc =>
    obtain ⟨c, t, hct, hc⟩ := renderNum_head m sc
    refine ⟨c, t, hct, ?_, ?_, ?_⟩
    · rcases hc with rfl | hdig
      · decide
      · exact digit_not_jws c hdig
    · rcases hc with rfl | hdig
      · decide
      · exact digit_ne c ']' hdig (by decide)
    · rcases hc with rfl | hdig
      · decide
      · exact digit_ne c '\x7d' hdig (by decide)
  | str s =>
    refine ⟨'"', _, rfl, ?_, ?_, ?_⟩ <;> decide
  | arr es =>
    cases es with
    | nil => refine ⟨'[', _, rfl, ?_, ?_, ?_⟩ <;> decide
    | cons e es => refine ⟨'[', _, rfl, ?_, ?_, ?_⟩ <;> decide
  | obj kvs =>
    cases kvs with
    | nil => refine ⟨'\x7b', _, rfl, ?_, ?_, ?_⟩ <;> decide
    | cons k v kvs => refine ⟨'\x7b', _, rfl, ?_, ?_, ?_⟩ <;> decide

theorem renderElems_head (lvl : Nat) (e : Json) (es : JsonList) :
    ∃ c t, renderElems lvl (.cons e es) = c :: t ∧ isJsonWs c = false ∧
      c ≠ ']' ∧ c ≠ '\x7d' := by
  obtain ⟨c, t, hct, h1, h2, h3⟩ := renderAt_head lvl e
  cases es with
  | nil => exact ⟨c, t, by simp [renderElems, hct], h1, h2, h3⟩
  | cons e2 es2 =>
    have hr : renderElems lvl (.cons e (.cons e2 es2)) =
        c :: (t ++ ',' :: '\n' :: (jIndent lvl ++ renderElems lvl (.cons e2 es2))) := by
      rw [renderElems, hct]
      simp
    exact ⟨c, _, hr, h1, h2, h3⟩

end FppcScrape

namespace FppcScrape

theorem skipJWs_render_elems (lvl lvl2 : Nat) (e : Json) (es : JsonList) (x : Str) :
    skipJWs ('\n' :: (jIndent lvl ++ (renderElems lvl2 (.cons e es) ++ x))) =
      renderElems lvl2 (.cons e es) ++ x := by
  have h1 : '\n' :: (jIndent lvl ++ (renderElems lvl2 (.cons e es) ++ x)) =
      ('\n' :: jIndent lvl) ++ (renderElems lvl2 (.cons e es) ++ x) := by simp
  rw [h1, skipJWs_append_ws _ _ (nl_indent_ws lvl)]
  obtain ⟨c, t, hct, hws, -, -⟩ := renderElems_head lvl2 e es
  rw [hct]
  apply skipJWs_not_head
  intro d hd
  simp at hd
  rw [← hd]
  exact hws

mutual

theorem parseVal_render : ∀ (v : Json) (lvl : Nat) (rest : Str) (fuel : Nat),
    jfuel v ≤ fuel → wfJson v = true → numSafeB v rest = true →
    parseVal fuel (renderAt lvl v ++ rest) = some (v, rest)
  | .null, lvl, rest, fuel, hf, _, _ => by
    obtain ⟨f, rfl⟩ : ∃ f, fuel = f + 1 :=
      ⟨fuel - 1, by simp [jfuel] at hf; omega⟩
    exact parseVal_render_null lvl rest f
  | .bool true, lvl, rest, fuel, hf, _, _ => by
    obtain ⟨f, rfl⟩ : ∃ f, fuel = f + 1 :=
      ⟨fuel - 1, by simp [jfuel] at hf; omega⟩
    exact parseVal_render_true lvl rest f
  | .bool false, lvl, rest, fuel, hf, _, _ => by
    obtain ⟨f, rfl⟩ : ∃ f, fuel = f + 1 :=
      ⟨fuel - 1, by simp [jfuel] at hf; omega⟩
    exact parseVal_render_false lvl rest f
  | .num m sc, lvl, rest, fuel, hf, _, hns => by
    obtain ⟨f, rfl⟩ : ∃ f, fuel = f + 1 :=
      ⟨fuel - 1, by simp [jfuel] at hf; omega⟩
    exact parseVal_render_num m sc lvl rest f (by simpa [numSafeB] using hns)
  | .str sv, lvl, rest, fuel, hf, _, _ => by
    obtain ⟨f, rfl⟩ : ∃ f, fuel = f + 1 :=
      ⟨fuel - 1, by simp [jfuel] at hf; omega⟩
    exact parseVal_render_str sv lvl rest f
  | .arr .nil, lvl, rest, fuel, hf, _, _ => by
    obtain ⟨f, rfl⟩ : ∃ f, fuel = f + 1 :=
      ⟨fuel - 1, by simp [jfuel, jfuelElems] at hf; omega⟩
    have hr : renderAt lvl (.arr .nil) = ['[', ']'] := rfl
    rw [hr]
    simp [parseVal, parseValHead, skipJWs, List.dropWhile, isJsonWs]
  | .obj .nil, lvl, rest, fuel, hf, _, _ => by
    obtain ⟨f, rfl⟩ : ∃ f, fuel = f + 1 :=
      ⟨fuel - 1, by simp [jfuel, jfuelMembers] at hf; omega⟩
    have hr : renderAt lvl (.obj .nil) = ['\x7b', '\x7d'] := rfl
    rw [hr]
    simp [parseVal, parseValHead, skipJWs, List.dropWhile, isJsonWs]
  | .arr (.cons e es), lvl, rest, fuel, hf, hw, _ => by
    obtain ⟨f, hfeq⟩ : ∃ f, fuel = f + 1 :=
      ⟨fuel - 1, by simp [jfuel] at hf; omega⟩
    subst hfeq
    have hfe : jfuelElems (.cons e es) ≤ f := by
      simp [jfuel] at hf
      omega
    have hwe : wfElems (.cons e es) = true := by
      simpa [wfJson] using hw
    have hshape : renderAt lvl (.arr (.cons e es)) ++ rest =
        '[' :: '\n' :: (jIndent (lvl + 1) ++ (renderElems (lvl + 1) (.cons e es) ++
          ('\n' :: (jIndent lvl ++ (']' :: rest))))) := by
      rw [show renderAt lvl (.arr (.cons e es)) =
        '[' :: '\n' :: (jIndent (lvl + 1) ++ renderElems (lvl + 1) (.cons e es) ++
          '\n' :: (jIndent lvl ++ [']'])) from rfl]
      simp
    rw [hshape]
    have hskip : skipJWs ('\n' :: (jIndent (lvl + 1) ++
        (renderElems (lvl + 1) (.cons e es) ++
          ('\n' :: (jIndent lvl ++ (']' :: rest)))))) =
        renderElems (lvl + 1) (.cons e es) ++
          ('\n' :: (jIndent lvl ++ (']' :: rest))) :=
      skipJWs_render_elems (lvl + 1) (lvl + 1) e es _
    rw [parseVal_cons f '[' _ (by decide), parseValHead_lbrack, hskip]
    obtain ⟨c, t, hct, hws, hbr, hbr2⟩ := renderElems_head (lvl + 1) e es
    rw [hct, List.cons_append]
    split
    · next r2 heq =>
      exact absurd (List.head_eq_of_cons_eq heq) hbr
    · next hne =>
      rw [← List.cons_append, ← hct,
        parseElems_render e es lvl rest f hfe hwe]
      rfl
  | .obj (.cons k v kvs), lvl, rest, fuel, hf, hw, _ => by
    obtain ⟨f, hfeq⟩ : ∃ f, fuel = f + 1 :=
      ⟨fuel - 1, by simp [jfuel] at hf; omega⟩
    subst hfeq
    have hfm : jfuelMembers (.cons k v kvs) ≤ f := by
      simp [jfuel] at hf
      omega
    have hwparts : nodupKeys (memberKeys (.cons k v kvs)) = true ∧
        wfMembers (.cons k v kvs) = true := by
      simpa [wfJson] using hw
    have hshape : renderAt lvl (.obj (.cons k v kvs)) ++ rest =
        '\x7b' :: '\n' :: (jIndent (lvl + 1) ++
          (renderMembers (lvl + 1) (.cons k v kvs) ++
            ('\n' :: (jIndent lvl ++ ('\x7d' :: rest))))) := by
      rw [show renderAt lvl (.obj (.cons k v kvs)) =
        '\x7b' :: '\n' :: (jIndent (lvl + 1) ++
          renderMembers (lvl + 1) (.cons k v kvs) ++
          '\n' :: (jIndent lvl ++ ['\x7d'])) from rfl]
      simp
    rw [hshape]
    have hmh : ∃ t2, renderMembers (lvl + 1) (.cons k v kvs) =
        '"' :: t2 := by
      cases kvs with
      | nil =>
        refine ⟨escapeStr k ++ '"' :: ':' :: ' ' :: renderAt (lvl + 1) v, ?_⟩
        rw [renderMembers, renderStr]
        simp
      | cons k2 v2 kvs2 =>
        refine ⟨escapeStr k ++ '"' :: ':' :: ' ' :: (renderAt (lvl + 1) v ++
          ',' :: '\n' :: (jIndent (lvl + 1) ++
            renderMembers (lvl + 1) (.cons k2 v2 kvs2))), ?_⟩
        rw [renderMembers, renderStr]
        simp
    obtain ⟨t2, hct⟩ := hmh
    have hskip : skipJWs ('\n' :: (jIndent (lvl + 1) ++
        (renderMembers (lvl + 1) (.cons k v kvs) ++
          ('\n' :: (jIndent lvl ++ ('\x7d' :: rest)))))) =
        renderMembers (lvl + 1) (.cons k v kvs) ++
          ('\n' :: (jIndent lvl ++ ('\x7d' :: rest))) := by
      have h1 : '\n' :: (jIndent (lvl + 1) ++
          (renderMembers (lvl + 1) (.cons k v kvs) ++
            ('\n' :: (jIndent lvl ++ ('\x7d' :: rest))))) =
          ('\n' :: jIndent (lvl + 1)) ++
            (renderMembers (lvl + 1) (.cons k v kvs) ++
              ('\n' :: (jIndent lvl ++ ('\x7d' :: rest)))) := by simp
      rw [h1, skipJWs_append_ws _ _ (nl_indent_ws (lvl + 1)), hct]
      apply skipJWs_not_head
      intro d hd
      simp at hd
      rw [← hd]
      decide
    rw [parseVal_cons f '\x7b' _ (by decide), parseValHead_lbrace, hskip, hct,
      List.cons_append]
    split
    · next r2 heq =>
      have := List.head_eq_of_cons_eq heq
      simp at this
    · next hne =>
      rw [← List.cons_append, ← hct,
        parseMembers_render k v kvs lvl rest f hfm hwparts.2]
      simp [dedupKeys_self _ hwparts.1]

termination_by v _ _ _ _ _ _ => sizeOf v

theorem parseElems_render : ∀ (e : Json) (es : JsonList) (lvl : Nat) (rest : Str)
    (fuel : Nat), jfuelElems (.cons e es) ≤ fuel → wfElems (.cons e es) = true →
    parseElems fuel (renderElems (lvl + 1) (.cons e es) ++
      ('\n' :: (jIndent lvl ++ (']' :: rest)))) = some (.cons e es, rest)
  | e, .nil, lvl, rest, fuel, hf, hw => by
    obtain ⟨g, rfl⟩ : ∃ g, fuel = g + 1 :=
      ⟨fuel - 1, by simp [jfuelElems] at hf; omega⟩
    have hge : jfuel e ≤ g := by
      simp [jfuelElems] at hf
      omega
    have hwe : wfJson e = true := by simpa [wfElems] using hw
    rw [show renderElems (lvl + 1) (.cons e .nil) = renderAt (lvl + 1) e from rfl]
    simp only [parseElems]
    rw [parseVal_render e (lvl + 1) _ g hge hwe
      (numSafeB_cons e '\n' _ (by decide) (by decide) (by decide) (by decide))]
    have htail : skipJWs ('\n' :: (jIndent lvl ++ (']' :: rest))) = ']' :: rest := by
      rw [show '\n' :: (jIndent lvl ++ (']' :: rest)) =
        ('\n' :: jIndent lvl) ++ (']' :: rest) from by simp]
      rw [skipJWs_append_ws _ _ (nl_indent_ws lvl)]
      apply skipJWs_not_head
      intro d hd
      simp at hd
      rw [← hd]
      decide
    simp only [htail]
  | e, .cons e2 es2, lvl, rest, fuel, hf, hw => by
    obtain ⟨g, rfl⟩ : ∃ g, fuel = g + 1 :=
      ⟨fuel - 1, by simp [jfuelElems] at hf; omega⟩
    have hge : jfuel e ≤ g := by
      simp [jfuelElems] at hf
      omega
    have hge2 : jfuelElems (.cons e2 es2) ≤ g := by
      simp [jfuelElems] at hf ⊢
      omega
    have hwe : wfJson e = true := by
      have := hw
      simp [wfElems] at this
      exact this.1
    have hwe2 : wfElems (.cons e2 es2) = true := by
      have := hw
      simp [wfElems] at this
      simp [wfElems, this.2.1, this.2.2]
    have hshape : renderElems (lvl + 1) (.cons e (.cons e2 es2)) ++
        ('\n' :: (jIndent lvl ++ (']' :: rest))) =
        renderAt (lvl + 1) e ++ (',' :: '\n' :: (jIndent (lvl + 1) ++
          (renderElems (lvl + 1) (.cons e2 es2) ++
            ('\n' :: (jIndent lvl ++ (']' :: rest)))))) := by
      rw [renderElems]
      simp
    rw [hshape]
    simp only [parseElems]
    rw [parseVal_render e (lvl + 1) _ g hge hwe
      (numSafeB_cons e ',' _ (by decide) (by decide) (by decide) (by decide))]
    have hskip : skipJWs (',' :: '\n' :: (jIndent (lvl + 1) ++
        (renderElems (lvl + 1) (.cons e2 es2) ++
          ('\n' :: (jIndent lvl ++ (']' :: rest)))))) =
        ',' :: '\n' :: (jIndent (lvl + 1) ++
          (renderElems (lvl + 1) (.cons e2 es2) ++
            ('\n' :: (jIndent lvl ++ (']' :: rest))))) := by
      apply skipJWs_not_head
      intro d hd
      simp at hd
      rw [← hd]
      decide
    simp only [hskip]
    have hws : parseElems g ('\n' :: (jIndent (lvl + 1) ++
        (renderElems (lvl + 1) (.cons e2 es2) ++
          ('\n' :: (jIndent lvl ++ (']' :: rest)))))) =
        parseElems g (renderElems (lvl + 1) (.cons e2 es2) ++
          ('\n' :: (jIndent lvl ++ (']' :: rest)))) := by
      rw [show '\n' :: (jIndent (lvl + 1) ++
          (renderElems (lvl + 1) (.cons e2 es2) ++
            ('\n' :: (jIndent lvl ++ (']' :: rest))))) =
          ('\n' :: jIndent (lvl + 1)) ++
            (renderElems (lvl + 1) (.cons e2 es2) ++
              ('\n' :: (jIndent lvl ++ (']' :: rest)))) from by simp]
      exact parseElems_ws g _ _ (nl_indent_ws (lvl + 1))
    rw [hws, parseElems_render e2 es2 lvl rest g hge2 hwe2]
    rfl

termination_by e es _ _ _ _ _ => sizeOf (JsonList.cons e es)

theorem parseMembers_render : ∀ (k : Str) (v : Json) (kvs : JsonMembers)
    (lvl : Nat) (rest : Str) (fuel : Nat),
    jfuelMembers (.cons k v kvs) ≤ fuel → wfMembers (.cons k v kvs) = true →
    parseMembers fuel (renderMembers (lvl + 1) (.cons k v kvs) ++
      ('\n' :: (jIndent lvl ++ ('\x7d' :: rest)))) = some (.cons k v kvs, rest)
  | k, v, .nil, lvl, rest, fuel, hf, hw => by
    obtain ⟨g, rfl⟩ : ∃ g, fuel = g + 1 :=
      ⟨fuel - 1, by simp [jfuelMembers] at hf; omega⟩
    have hgv : jfuel v ≤ g := by
      simp [jfuelMembers] at hf
      omega
    have hwv : wfJson v = true := by simpa [wfMembers] using hw
    have hshape : renderMembers (lvl + 1) (.cons k v .nil) ++
        ('\n' :: (jIndent lvl ++ ('\x7d' :: rest))) =
        '"' :: (escapeStr k ++ ('"' :: (':' :: ' ' :: (renderAt (lvl + 1) v ++
          ('\n' :: (jIndent lvl ++ ('\x7d' :: rest))))))) := by
      rw [renderMembers, renderStr]
      simp
    rw [hshape]
    simp only [parseMembers]
    have hskip0 : skipJWs ('"' :: (escapeStr k ++ ('"' :: (':' :: ' ' ::
        (renderAt (lvl + 1) v ++ ('\n' :: (jIndent lvl ++ ('\x7d' :: rest)))))))) =
        '"' :: (escapeStr k ++ ('"' :: (':' :: ' ' :: (renderAt (lvl + 1) v ++
          ('\n' :: (jIndent lvl ++ ('\x7d' :: rest))))))) := by
      apply skipJWs_not_head
      intro d hd
      simp at hd
      rw [← hd]
      decide
    simp only [hskip0, parseStringBody_escape]
    have hsk1 : skipJWs (':' :: ' ' :: (renderAt (lvl + 1) v ++
        ('\n' :: (jIndent lvl ++ ('\x7d' :: rest))))) =
        ':' :: ' ' :: (renderAt (lvl + 1) v ++
          ('\n' :: (jIndent lvl ++ ('\x7d' :: rest)))) := by
      apply skipJWs_not_head
      intro d hd
      simp at hd
      rw [← hd]
      decide
    simp only [hsk1]
    have hv : parseVal g (' ' :: (renderAt (lvl + 1) v ++
        ('\n' :: (jIndent lvl ++ ('\x7d' :: rest))))) =
        some (v, '\n' :: (jIndent lvl ++ ('\x7d' :: rest))) := by
      rw [show ' ' :: (renderAt (lvl + 1) v ++
          ('\n' :: (jIndent lvl ++ ('\x7d' :: rest)))) =
          [' '] ++ (renderAt (lvl + 1) v ++
            ('\n' :: (jIndent lvl ++ ('\x7d' :: rest)))) from rfl]
      rw [parseVal_ws g [' '] _ (by intro c hc; simp at hc; rw [hc]; rfl)]
      exact parseVal_render v (lvl + 1) _ g hgv hwv
        (numSafeB_cons v '\n' _ (by decide) (by decide) (by decide) (by decide))
    have htail : skipJWs ('\n' :: (jIndent lvl ++ ('\x7d' :: rest))) =
        '\x7d' :: rest := by
      rw [show '\n' :: (jIndent lvl ++ ('\x7d' :: rest)) =
        ('\n' :: jIndent lvl) ++ ('\x7d' :: rest) from by simp]
      rw [skipJWs_append_ws _ _ (nl_indent_ws lvl)]
      apply skipJWs_not_head
      intro d hd
      simp at hd
      rw [← hd]
      decide
    simp only [hv, htail]
  | k, v, .cons k2 v2 kvs2, lvl, rest, fuel, hf, hw => by
    obtain ⟨g, rfl⟩ : ∃ g, fuel = g + 1 :=
      ⟨fuel - 1, by simp [jfuelMembers] at hf; omega⟩
    have hgv : jfuel v ≤ g := by
      simp [jfuelMembers] at hf
      omega
    have hgm : jfuelMembers (.cons k2 v2 kvs2) ≤ g := by
      simp [jfuelMembers] at hf ⊢
      omega
    have hwv : wfJson v = true := by
      have := hw
      simp [wfMembers] at this
      exact this.1
    have hwm : wfMembers (.cons k2 v2 kvs2) = true := by
      have := hw
      simp [wfMembers] at this
      simp [wfMembers, this.2.1, this.2.2]
    have hshape : renderMembers (lvl + 1) (.cons k v (.cons k2 v2 kvs2)) ++
        ('\n' :: (jIndent lvl ++ ('\x7d' :: rest))) =
        '"' :: (escapeStr k ++ ('"' :: (':' :: ' ' :: (renderAt (lvl + 1) v ++
          (',' :: '\n' :: (jIndent (lvl + 1) ++
            (renderMembers (lvl + 1) (.cons k2 v2 kvs2) ++
              ('\n' :: (jIndent lvl ++ ('\x7d' :: rest)))))))))) := by
      rw [renderMembers, renderStr]
      simp
    rw [hshape]
    simp only [parseMembers]
    have hskip0 : ∀ x : Str, skipJWs ('"' :: x) = '"' :: x := by
      intro x
      apply skipJWs_not_head
      intro d hd
      simp at hd
      rw [← hd]
      decide
    simp only [hskip0, parseStringBody_escape]
    have hsk1 : ∀ x : Str, skipJWs (':' :: x) = ':' :: x := by
      intro x
      apply skipJWs_not_head
      intro d hd
      simp at hd
      rw [← hd]
      decide
    simp only [hsk1]
    have hv : parseVal g (' ' :: (renderAt (lvl + 1) v ++
        (',' :: '\n' :: (jIndent (lvl + 1) ++
          (renderMembers (lvl + 1) (.cons k2 v2 kvs2) ++
            ('\n' :: (jIndent lvl ++ ('\x7d' :: rest)))))))) =
        some (v, ',' :: '\n' :: (jIndent (lvl + 1) ++
          (renderMembers (lvl + 1) (.cons k2 v2 kvs2) ++
            ('\n' :: (jIndent lvl ++ ('\x7d' :: rest)))))) := by
      rw [show ' ' :: (renderAt (lvl + 1) v ++
          (',' :: '\n' :: (jIndent (lvl + 1) ++
            (renderMembers (lvl + 1) (.cons k2 v2 kvs2) ++
              ('\n' :: (jIndent lvl ++ ('\x7d' :: rest))))))) =
          [' '] ++ (renderAt (lvl + 1) v ++
            (',' :: '\n' :: (jIndent (lvl + 1) ++
              (renderMembers (lvl + 1) (.cons k2 v2 kvs2) ++
                ('\n' :: (jIndent lvl ++ ('\x7d' :: rest))))))) from rfl]
      rw [parseVal_ws g [' '] _ (by intro c hc; simp at hc; rw [hc]; rfl)]
      exact parseVal_render v (lvl + 1) _ g hgv hwv
        (numSafeB_cons v ',' _ (by decide) (by decide) (by decide) (by decide))
    have hskc : ∀ x : Str, skipJWs (',' :: x) = ',' :: x := by
      intro x
      apply skipJWs_not_head
      intro d hd
      simp at hd
      rw [← hd]
      decide
    simp only [hv, hskc]
    have hws : parseMembers g ('\n' :: (jIndent (lvl + 1) ++
        (renderMembers (lvl + 1) (.cons k2 v2 kvs2) ++
          ('\n' :: (jIndent lvl ++ ('\x7d' :: rest)))))) =
        parseMembers g (renderMembers (lvl + 1) (.cons k2 v2 kvs2) ++
          ('\n' :: (jIndent lvl ++ ('\x7d' :: rest)))) := by
      rw [show '\n' :: (jIndent (lvl + 1) ++
          (renderMembers (lvl + 1) (.cons k2 v2 kvs2) ++
            ('\n' :: (jIndent lvl ++ ('\x7d' :: rest))))) =
          ('\n' :: jIndent (lvl + 1)) ++
            (renderMembers (lvl + 1) (.cons k2 v2 kvs2) ++
              ('\n' :: (jIndent lvl ++ ('\x7d' :: rest)))) from by simp]
      exact parseMembers_ws g _ _ (nl_indent_ws (lvl + 1))
    rw [hws, parseMembers_render k2 v2 kvs2 lvl rest g hgm hwm]
    rfl
termination_by k v kvs _ _ _ _ _ => sizeOf (JsonMembers.cons k v kvs)
decreasing_by all_goals (simp_wf; try omega)

end

end FppcScrape

namespace FppcScrape

theorem renderNum_ne_nil (m : ℤ) (sc : ℕ) : renderNum m sc ≠ [] := by
  obtain ⟨c, t, hct, -⟩ := renderNum_head m sc
  rw [hct]
  simp

theorem renderAt_length_pos (lvl : Nat) (v : Json) :
    1 ≤ (renderAt lvl v).length := by
  obtain ⟨c, t, hct, -⟩ := renderAt_head lvl v
  rw [hct]
  simp

mutual

theorem jfuel_le_render : ∀ (v : Json) (lvl : Nat),
    jfuel v ≤ (renderAt lvl v).length
  | .null, lvl => by rw [renderAt_null]; simp [jfuel]
  | .bool true, lvl => by
    rw [show renderAt lvl (.bool true) = ['t', 'r', 'u', 'e'] from rfl]
    simp [jfuel]
  | .bool false, lvl => by
    rw [show renderAt lvl (.bool false) = ['f', 'a', 'l', 's', 'e'] from rfl]
    simp [jfuel]
  | .num m sc, lvl => by
    rw [show renderAt lvl (.num m sc) = renderNum m sc from rfl]
    have := renderNum_ne_nil m sc
    simp [jfuel]
    cases h : renderNum m sc with
    | nil => exact absurd h this
    | cons c t => simp
  | .str sv, lvl => by
    rw [show renderAt lvl (.str sv) = '"' :: (escapeStr sv ++ ['"']) from rfl]
    simp [jfuel]
  | .arr .nil, lvl => by
    rw [show renderAt lvl (.arr .nil) = ['[', ']'] from rfl]
    simp [jfuel, jfuelElems]
  | .obj .nil, lvl => by
    rw [show renderAt lvl (.obj .nil) = ['\x7b', '\x7d'] from rfl]
    simp [jfuel, jfuelMembers]
  | .arr (.cons e es), lvl => by
    have h := jfuelElems_le_render e es (lvl + 1)
    rw [show renderAt lvl (.arr (.cons e es)) =
      '[' :: '\n' :: (jIndent (lvl + 1) ++ renderElems (lvl + 1) (.cons e es) ++
        '\n' :: (jIndent lvl ++ [']'])) from rfl]
    simp only [jfuel, List.length_cons, List.length_append]
    omega
  | .obj (.cons k v kvs), lvl => by
    have h := jfuelMembers_le_render k v kvs (lvl + 1)
    rw [show renderAt lvl (.obj (.cons k v kvs)) =
      '\x7b' :: '\n' :: (jIndent (lvl + 1) ++
        renderMembers (lvl + 1) (.cons k v kvs) ++
        '\n' :: (jIndent lvl ++ ['\x7d'])) from rfl]
    simp only [jfuel, List.length_cons, List.length_append]
    omega

termination_by v _ => sizeOf v

theorem jfuelElems_le_render : ∀ (e : Json) (es : JsonList) (lvl : Nat),
    jfuelElems (.cons e es) ≤ (renderElems lvl (.cons e es)).length + 1
  | e, .nil, lvl => by
    have h := jfuel_le_render e lvl
    have h2 := renderAt_length_pos lvl e
    rw [show renderElems lvl (.cons e .nil) = renderAt lvl e from rfl]
    simp only [jfuelElems, jfuel]
    omega
  | e, .cons e2 es2, lvl => by
    have h := jfuel_le_render e lvl
    have h2 := jfuelElems_le_render e2 es2 lvl
    have h3 := renderAt_length_pos lvl e
    rw [show renderElems lvl (.cons e (.cons e2 es2)) =
      renderAt lvl e ++ ',' :: '\n' ::
        (jIndent lvl ++ renderElems lvl (.cons e2 es2)) from rfl]
    simp only [jfuelElems, List.length_append, List.length_cons] at h2 ⊢
    omega

termination_by e es _ => sizeOf (JsonList.cons e es)

theorem jfuelMembers_le_render : ∀ (k : Str) (v : Json) (kvs : JsonMembers)
    (lvl : Nat), jfuelMembers (.cons k v kvs) ≤
      (renderMembers lvl (.cons k v kvs)).length + 1
  | k, v, .nil, lvl => by
    have h := jfuel_le_render v lvl
    rw [show renderMembers lvl (.cons k v .nil) =
      renderStr k ++ ':' :: ' ' :: renderAt lvl v from rfl]
    simp only [jfuelMembers, List.length_append, List.length_cons]
    omega
  | k, v, .cons k2 v2 kvs2, lvl => by
    have h := jfuel_le_render v lvl
    have h2 := jfuelMembers_le_render k2 v2 kvs2 lvl
    have h3 := renderAt_length_pos lvl v
    rw [show renderMembers lvl (.cons k v (.cons k2 v2 kvs2)) =
      renderStr k ++ ':' :: ' ' :: renderAt lvl v ++ ',' :: '\n' ::
        (jIndent lvl ++ renderMembers lvl (.cons k2 v2 kvs2)) from rfl]
    simp only [jfuelMembers, List.length_append, List.length_cons] at h2 ⊢
    omega
termination_by k v kvs _ => sizeOf (JsonMembers.cons k v kvs)
decreasing_by all_goals (simp_wf; try omega)

end

theorem numSafeB_nil (v : Json) : numSafeB v [] = true := by
  cases v <;> rfl

/-- `json.loads` inverts `json.dumps` on well-formed values. -/
theorem pyLoads_render (v : Json) (hw : wfJson v = true) :
    pyLoads (renderJson v) = some v := by
  have hfuel : jfuel v ≤ (renderAt 0 v).length + 1 :=
    Nat.le_succ_of_le (jfuel_le_render v 0)
  have h := parseVal_render v 0 [] ((renderAt 0 v).length + 1) hfuel hw
    (numSafeB_nil v)
  rw [List.append_nil] at h
  unfold pyLoads renderJson
  rw [h]
  rfl

end FppcScrape

namespace FppcScrape

@[simp] theorem asStr_jStr (s : Str) : asStr (jStr s) = some s := rfl

@[simp] theorem asOptStr_jOptStr (x : Option Str) :
    asOptStr (jOptStr x) = some x := by cases x <;> rfl

@[simp] theorem asInt_jInt (n : ℤ) : asInt (jInt n) = some n := rfl

@[simp] theorem asOptInt_jOptInt (x : Option ℤ) :
    asOptInt (jOptInt x) = some x := by cases x <;> rfl

@[simp] theorem asFloat_jFloat (x : PyFloat) : asFloat (jFloat x) = some x := rfl

@[simp] theorem asOptFloat_jOptFloat (x : Option PyFloat) :
    asOptFloat (jOptFloat x) = some x := by cases x <;> rfl

@[simp] theorem asBool_jBool (b : Bool) : asBool (jBool b) = some b := rfl

@[simp] theorem asStrList_jStrList (l : List Str) :
    asStrList (jStrList l) = some l := by
  induction l with
  | nil => rfl
  | cons s rest ih => simp [jStrList, asStrList, ih]

@[simp] theorem asArr_jStrList (l : List Str) :
    asArr (.arr (jStrList l)) = some l := by simp [asArr]

theorem sourceMetadataFromJson_toJson (x : SourceMetadata) :
    sourceMetadataFromJson (sourceMetadataToJson x) = some x := by
  cases x
  simp [sourceMetadataFromJson, sourceMetadataToJson, getKey, keysSubset,
    memberKeys]

end FppcScrape

namespace FppcScrape

theorem extractionInfoFromJson_toJson (x : ExtractionInfo) :
    extractionInfoFromJson (extractionInfoToJson x) = some x := by
  cases x
  simp [extractionInfoFromJson, extractionInfoToJson, getKey, keysSubset,
    memberKeys]

theorem contentFromJson_toJson (x : Content) :
    contentFromJson (contentToJson x) = some x := by
  cases x
  simp [contentFromJson, contentToJson, getKey, keysSubset, memberKeys]

theorem parsedMetadataFromJson_toJson (x : ParsedMetadata) :
    parsedMetadataFromJson (parsedMetadataToJson x) = some x := by
  cases x
  simp [parsedMetadataFromJson, parsedMetadataToJson, getKey, keysSubset,
    memberKeys]

theorem sectionsFromJson_toJson (x : Sections) :
    sectionsFromJson (sectionsToJson x) = some x := by
  cases x
  simp [sectionsFromJson, sectionsToJson, getKey, keysSubset, memberKeys]

theorem citationsFromJson_toJson (x : Citations) :
    citationsFromJson (citationsToJson x) = some x := by
  cases x
  simp [citationsFromJson, citationsToJson, getKey, keysSubset, memberKeys]

theorem classificationFromJson_toJson (x : Classification) :
    classificationFromJson (classificationToJson x) = some x := by
  cases x
  simp [classificationFromJson, classificationToJson, getKey, keysSubset,
    memberKeys]

theorem embeddingContentFromJson_toJson (x : EmbeddingContent) :
    embeddingContentFromJson (embeddingContentToJson x) = some x := by
  cases x
  simp [embeddingContentFromJson, embeddingContentToJson, getKey, keysSubset,
    memberKeys]

theorem docFromJsonVal_docToJson (d : FPPCDocument) :
    docFromJsonVal (docToJson d) = some d := by
  cases d
  simp [docFromJsonVal, docToJson, getKey,
    sourceMetadataFromJson_toJson, extractionInfoFromJson_toJson,
    contentFromJson_toJson, parsedMetadataFromJson_toJson,
    sectionsFromJson_toJson, citationsFromJson_toJson,
    classificationFromJson_toJson, embeddingContentFromJson_toJson]

end FppcScrape

namespace FppcScrape

@[simp] theorem wfJson_obj (kvs : JsonMembers) :
    wfJson (.obj kvs) = (nodupKeys (memberKeys kvs) && wfMembers kvs) := rfl

@[simp] theorem wfMembers_nil : wfMembers .nil = true := rfl

@[simp] theorem wfMembers_cons (k : Str) (v : Json) (rest : JsonMembers) :
    wfMembers (.cons k v rest) = (wfJson v && wfMembers rest) := rfl

@[simp] theorem wfJson_jStr (s : Str) : wfJson (jStr s) = true := rfl

@[simp] theorem wfJson_jOptStr (x : Option Str) : wfJson (jOptStr x) = true := by
  cases x <;> rfl

@[simp] theorem wfJson_jInt (n : ℤ) : wfJson (jInt n) = true := rfl

@[simp] theorem wfJson_jOptInt (x : Option ℤ) : wfJson (jOptInt x) = true := by
  cases x <;> rfl

@[simp] theorem wfJson_jFloat (x : PyFloat) : wfJson (jFloat x) = true := rfl

@[simp] theorem wfJson_jOptFloat (x : Option PyFloat) :
    wfJson (jOptFloat x) = true := by cases x <;> rfl

@[simp] theorem wfJson_jBool (b : Bool) : wfJson (jBool b) = true := rfl

@[simp] theorem wfElems_jStrList (l : List Str) :
    wfElems (jStrList l) = true := by
  induction l with
  | nil => rfl
  | cons s rest ih => simp [jStrList, wfElems, wfJson, ih]

@[simp] theorem wfJson_arr_jStrList (l : List Str) :
    wfJson (.arr (jStrList l)) = true := by simp [wfJson]

theorem wf_sourceMetadataToJson (x : SourceMetadata) :
    wfJson (sourceMetadataToJson x) = true := by
  cases x
  simp [sourceMetadataToJson, nodupKeys, memberKeys]

theorem wf_extractionInfoToJson (x : ExtractionInfo) :
    wfJson (extractionInfoToJson x) = true := by
  cases x
  simp [extractionInfoToJson, nodupKeys, memberKeys]

theorem wf_contentToJson (x : Content) :
    wfJson (contentToJson x) = true := by
  cases x
  simp [contentToJson, nodupKeys, memberKeys]

theorem wf_parsedMetadataToJson (x : ParsedMetadata) :
    wfJson (parsedMetadataToJson x) = true := by
  cases x
  simp [parsedMetadataToJson, nodupKeys, memberKeys]

theorem wf_sectionsToJson (x : Sections) :
    wfJson (sectionsToJson x) = true := by
  cases x
  simp [sectionsToJson, nodupKeys, memberKeys]

theorem wf_citationsToJson (x : Citations) :
    wfJson (citationsToJson x) = true := by
  cases x
  simp [citationsToJson, nodupKeys, memberKeys]

theorem wf_classificationToJson (x : Classification) :
    wfJson (classificationToJson x) = true := by
  cases x
  simp [classificationToJson, nodupKeys, memberKeys]

theorem wf_embeddingContentToJson (x : EmbeddingContent) :
    wfJson (embeddingContentToJson x) = true := by
  cases x
  simp [embeddingContentToJson, nodupKeys, memberKeys]

theorem wf_docToJson (d : FPPCDocument) : wfJson (docToJson d) = true := by
  cases d
  simp [docToJson, nodupKeys, memberKeys,
    wf_sourceMetadataToJson, wf_extractionInfoToJson, wf_contentToJson,
    wf_parsedMetadataToJson, wf_sectionsToJson, wf_citationsToJson,
    wf_classificationToJson, wf_embeddingContentToJson]

/-- The Structured Record codec is lossless. -/
theorem from_json_to_json (d : FPPCDocument) :
    from_json (to_json d) = some d := by
  unfold from_json to_json
  rw [pyLoads_render (docToJson d) (wf_docToJson d)]
  simp [docFromJsonVal_docToJson]

end FppcScrape

namespace FppcScrape

theorem pyLoads_backtick (r : Str) : pyLoads ('`' :: r) = none := by
  unfold pyLoads
  rw [show ('`' :: r).length + 1 = (('`' :: r).length) + 1 from rfl,
    show ('`' :: r).length = r.length + 1 from by simp,
    parseVal_cons (r.length + 1) '`' r (by decide)]
  simp [parseValHead]

theorem mem_of_mem_dropWhile (p : Char → Bool) :
    ∀ (l : Str) (c : Char), c ∈ l.dropWhile p → c ∈ l
  | [], c, h => by simp [List.dropWhile] at h
  | d :: rest, c, h => by
    by_cases hd : p d
    · simp only [List.dropWhile, hd] at h
      exact List.mem_cons_of_mem d (mem_of_mem_dropWhile p rest c h)
    · simp only [List.dropWhile, hd] at h
      simpa using h

theorem subFences_no_btick : ∀ s : Str, (∀ c ∈ s, c ≠ '`') → subFences s = s
  | [], _ => by rw [subFences]
  | c :: rest, h => by
    rw [subFences,
      if_neg (by
        rintro ⟨rfl, -⟩
        exact h '`' (List.mem_cons_self _ _) rfl),
      subFences_no_btick rest (fun d hd => h d (List.mem_cons_of_mem c hd))]

theorem subFences_append_no_btick :
    ∀ (l : Str) (t : Str), (∀ c ∈ l, c ≠ '`') →
      subFences (l ++ t) = l ++ subFences t
  | [], t, _ => by simp
  | c :: rest, t, h => by
    rw [List.cons_append, subFences,
      if_neg (by
        rintro ⟨rfl, -⟩
        exact h '`' (List.mem_cons_self _ _) rfl),
      subFences_append_no_btick rest t (fun d hd => h d (List.mem_cons_of_mem c hd))]
    rfl

theorem subTrailingFence_no_btick (s : Str) (h : ∀ c ∈ s, c ≠ '`') :
    subTrailingFence s = s := by
  unfold subTrailingFence
  rw [if_neg]
  intro hc
  have h3 : '`' ∈ (s.reverse.dropWhile isSpaceChar).take 3 := by
    rw [hc]
    simp
  have h4 : '`' ∈ s.reverse.dropWhile isSpaceChar := List.mem_of_mem_take h3
  have h5 : '`' ∈ s.reverse := mem_of_mem_dropWhile _ _ _ h4
  exact h '`' (List.mem_reverse.mp h5) rfl

theorem stripFences_no_btick (s : Str) (h : ∀ c ∈ s, c ≠ '`') :
    stripFences s = s := by
  unfold stripFences
  rw [subFences_no_btick s h, subTrailingFence_no_btick s h]

theorem pyStrip_eq_self (s : Str)
    (hh : ∀ c, s.head? = some c → isSpaceChar c = false)
    (hl : ∀ c, s.getLast? = some c → isSpaceChar c = false) :
    pyStrip s = s := by
  unfold pyStrip
  rw [dropWhileNotHead _ s hh]
  rw [dropWhileNotHead _ s.reverse (by
    intro c hc
    rw [List.head?_reverse] at hc
    exact hl c hc)]
  exact List.reverse_reverse s

theorem pyStrip_append_nl (j : Str) (hh : j.head? = some '\x7b')
    (hl : j.getLast? = some '\x7d') :
    pyStrip (j ++ ['\n']) = j := by
  unfold pyStrip
  have h1 : (j ++ ['\n']).dropWhile isSpaceChar = j ++ ['\n'] := by
    apply dropWhileNotHead
    intro c hc
    cases j with
    | nil => simp at hh
    | cons a b =>
      simp at hh hc
      rw [← hc, hh]
      rfl
  rw [h1]
  have h2 : (j ++ ['\n']).reverse = '\n' :: j.reverse := by simp
  rw [h2]
  have h3 : ('\n' :: j.reverse).dropWhile isSpaceChar =
      j.reverse.dropWhile isSpaceChar := by
    simp [List.dropWhile]
    rfl
  rw [h3]
  have h4 : j.reverse.dropWhile isSpaceChar = j.reverse := by
    apply dropWhileNotHead
    intro c hc
    rw [List.head?_reverse, hl] at hc
    injection hc with h
    rw [← h]
    rfl
  rw [h4, List.reverse_reverse]

end FppcScrape

namespace FppcScrape

theorem headAppend (j x : Str) (h : j ≠ []) : (j ++ x).head? = j.head? := by
  cases j with
  | nil => exact absurd rfl h
  | cons a b => rfl

theorem renderObj_head (k : Str) (v : Json) (kvs : JsonMembers) :
    (renderJson (Json.obj (.cons k v kvs))).head? = some '\x7b' := rfl

theorem renderObj_getLast (k : Str) (v : Json) (kvs : JsonMembers) :
    (renderJson (Json.obj (.cons k v kvs))).getLast? = some '\x7d' := by
  have h : renderJson (Json.obj (.cons k v kvs)) =
      ('\x7b' :: '\n' :: (jIndent 1 ++ renderMembers 1 (.cons k v kvs) ++
        '\n' :: jIndent 0)) ++ ['\x7d'] := by
    show '\x7b' :: '\n' :: (jIndent 1 ++ renderMembers 1 (.cons k v kvs) ++
      '\n' :: (jIndent 0 ++ ['\x7d'])) = _
    simp
  rw [h, List.getLast?_concat]

theorem renderObj_length (k : Str) (v : Json) (kvs : JsonMembers) :
    2 ≤ (renderJson (Json.obj (.cons k v kvs))).length := by
  show 2 ≤ ('\x7b' :: '\n' :: (jIndent 1 ++ renderMembers 1 (.cons k v kvs) ++
    '\n' :: (jIndent 0 ++ ['\x7d']))).length
  simp

theorem pyLoads_render_junk (v : Json) (p : Str) (hwf : wfJson v = true)
    (hns : numSafeB v p = true) (hp : p.all isJsonWs = false) :
    pyLoads (renderJson v ++ p) = none := by
  unfold pyLoads
  have hfuel : jfuel v ≤ (renderAt 0 v ++ p).length + 1 := by
    have h1 := jfuel_le_render v 0
    simp only [List.length_append]
    omega
  simp only [renderJson]
  rw [parseVal_render v 0 p _ hfuel hwf hns]
  simp [hp]

theorem subFences_fence_open (j : Str) (hh : ∀ c, j.head? = some c → isSpaceChar c = false) :
    subFences ("```json\n".data ++ j) = subFences j := by
  rw [show "```json\n".data ++ j =
    '`' :: ('`' :: '`' :: 'j' :: 's' :: 'o' :: 'n' :: '\n' :: j) from rfl]
  rw [subFences, if_pos ⟨rfl, rfl⟩]
  have h1 : ('`' :: '`' :: 'j' :: 's' :: 'o' :: 'n' :: '\n' :: j).drop 2 =
      'j' :: 's' :: 'o' :: 'n' :: '\n' :: j := rfl
  rw [h1]
  have h2 : dropJsonTag ('j' :: 's' :: 'o' :: 'n' :: '\n' :: j) = '\n' :: j := by
    unfold dropJsonTag
    rw [if_pos (by simp [List.isPrefixOf])]
    rfl
  rw [h2]
  have h3 : ('\n' :: j).dropWhile isSpaceChar = j.dropWhile isSpaceChar := by
    simp [List.dropWhile]
    rfl
  rw [h3, dropWhileNotHead _ j hh]

theorem subFences_nl_fence : subFences ['\n', '`', '`', '`'] = ['\n'] := by
  rw [subFences, if_neg (by rintro ⟨h, -⟩; cases h)]
  rw [subFences, if_pos ⟨rfl, rfl⟩]
  have h : (dropJsonTag ((['`', '`'] : Str).drop 2)).dropWhile isSpaceChar =
      ([] : Str) := by decide
  rw [h, subFences]

theorem stripFences_fenced (j : Str) (hb : ∀ c ∈ j, c ≠ '`')
    (hh : j.head? = some '\x7b') :
    stripFences ("```json\n".data ++ (j ++ "\n```".data)) = j ++ ['\n'] := by
  have hjne : j ≠ [] := by
    intro h
    rw [h] at hh
    cases hh
  unfold stripFences
  rw [subFences_fence_open (j ++ "\n```".data) (by
    intro c hc
    rw [headAppend j _ hjne, hh] at hc
    injection hc with h
    rw [← h]
    rfl)]
  rw [subFences_append_no_btick j _ hb]
  rw [show "\n```".data = ['\n', '`', '`', '`'] from rfl, subFences_nl_fence]
  apply subTrailingFence_no_btick
  intro c hc
  rcases List.mem_append.mp hc with h | h
  · exact hb c h
  · simp at h
    rw [h]
    intro hcontra
    cases hcontra

theorem braceSpan_render_append (j p : Str) (hh : j.head? = some '\x7b')
    (hl : j.getLast? = some '\x7d') (h2 : 2 ≤ j.length)
    (hp : ∀ c ∈ p, c ≠ '\x7d') :
    braceSpan (j ++ p) = some j := by
  have hjne : j ≠ [] := by
    intro h
    rw [h] at hh
    cases hh
  simp only [braceSpan]
  have h1 : (j ++ p).dropWhile (fun c => c ≠ '\x7b') = j ++ p := by
    apply dropWhileNotHead
    intro c hc
    rw [headAppend j p hjne, hh] at hc
    injection hc with h
    rw [← h]
    simp
  rw [h1]
  have hrev : (j ++ p).reverse = p.reverse ++ j.reverse := by simp
  rw [hrev]
  have h3 : (p.reverse ++ j.reverse).dropWhile (fun c => c ≠ '\x7d') =
      j.reverse.dropWhile (fun c => c ≠ '\x7d') :=
    dropWhileAppendAll _ _ _ (by
      intro c hc
      have := hp c (List.mem_reverse.mp hc)
      simp [this])
  have h4 : j.reverse.dropWhile (fun c => c ≠ '\x7d') = j.reverse := by
    apply dropWhileNotHead
    intro c hc
    rw [List.head?_reverse, hl] at hc
    injection hc with h
    rw [← h]
    simp
  rw [h3, h4, if_pos (by simpa using h2), List.reverse_reverse]

end FppcScrape

namespace FppcScrape

theorem roundHalfEven_ge (y : ℚ) (n : ℤ) (h : (n : ℚ) ≤ y) :
    n ≤ roundHalfEven y := by
  have hf : n ≤ ⌊y⌋ := Int.le_floor.mpr h
  unfold roundHalfEven
  simp only []
  split_ifs <;> omega

theorem pyRound4_ge (x : ℚ) (n : ℤ) (h : (n : ℚ) / 10000 ≤ x) :
    (n : ℚ) / 10000 ≤ pyRound4 x := by
  unfold pyRound4
  have h1 : (n : ℚ) ≤ x * 10000 := by linarith
  have h2 := roundHalfEven_ge (x * 10000) n h1
  have h3 : (n : ℚ) ≤ (roundHalfEven (x * 10000) : ℚ) := by exact_mod_cast h2
  linarith

end FppcScrape

namespace FppcScrape

theorem getLastAppendNe (l1 l2 : Str) (h : l2 ≠ []) :
    (l1 ++ l2).getLast? = l2.getLast? := by
  rw [← List.head?_reverse, ← List.head?_reverse, List.reverse_append]
  exact headAppend _ _ (by simpa using h)

theorem mem_of_getLast (l : Str) (c : Char) (h : l.getLast? = some c) :
    c ∈ l := by
  rw [← List.head?_reverse] at h
  have hmem : c ∈ l.reverse := by
    cases hl : l.reverse with
    | nil => rw [hl] at h; cases h
    | cons a b =>
      rw [hl] at h
      injection h with h2
      rw [← h2]
      exact List.mem_cons_self a b
  exact List.mem_reverse.mp hmem

theorem isJsonWs_space (c : Char) (h : isJsonWs c = true) :
    isSpaceChar c = true := by
  simp only [isJsonWs, Bool.or_eq_true, decide_eq_true_eq] at h
  rcases h with ((rfl | rfl) | rfl) | rfl <;> rfl

theorem head_dropWhile_not (pr : Char → Bool) :
    ∀ (l : Str) (c : Char), (l.dropWhile pr).head? = some c → pr c = false
  | [], c, h => by simp [List.dropWhile] at h
  | a :: rest, c, h => by
    cases hpa : pr a with
    | true =>
      simp only [List.dropWhile, hpa] at h
      exact head_dropWhile_not pr rest c h
    | false =>
      simp only [List.dropWhile, hpa] at h
      injection h with h2
      rw [← h2]
      exact hpa

theorem dropWhileAppend (pr : Char → Bool) : ∀ (l1 l2 : Str),
    (l1 ++ l2).dropWhile pr =
      if l1.dropWhile pr = [] then l2.dropWhile pr
      else l1.dropWhile pr ++ l2
  | [], l2 => by simp [List.dropWhile]
  | a :: rest, l2 => by
    cases hpa : pr a with
    | true =>
      rw [List.cons_append]
      simp only [List.dropWhile, hpa]
      exact dropWhileAppend pr rest l2
    | false =>
      rw [List.cons_append]
      simp only [List.dropWhile, hpa]
      rw [if_neg (by simp)]
      rfl

theorem pyStrip_render_append (j p : Str) (hh : j.head? = some '\x7b')
    (hl : j.getLast? = some '\x7d') :
    pyStrip (j ++ p) = j ++ (p.reverse.dropWhile isSpaceChar).reverse := by
  have hne : j ≠ [] := by
    intro h
    rw [h] at hh
    cases hh
  unfold pyStrip
  have h1 : (j ++ p).dropWhile isSpaceChar = j ++ p := by
    apply dropWhileNotHead
    intro c hc
    rw [headAppend _ _ hne, hh] at hc
    injection hc with h2
    rw [← h2]
    rfl
  rw [h1, List.reverse_append, dropWhileAppend isSpaceChar p.reverse j.reverse]
  by_cases hpr : p.reverse.dropWhile isSpaceChar = []
  · rw [if_pos hpr]
    have h4 : j.reverse.dropWhile isSpaceChar = j.reverse := by
      apply dropWhileNotHead
      intro c hc
      rw [List.head?_reverse, hl] at hc
      injection hc with h2
      rw [← h2]
      rfl
    rw [h4, List.reverse_reverse, hpr]
    simp
  · rw [if_neg hpr, List.reverse_append, List.reverse_reverse]

/-- `pyLoads` on a rendered value followed by an arbitrary suffix: the
parse stops exactly at the value's end, then accepts iff the suffix is
JSON whitespace only. -/
theorem pyLoads_render_append (v : Json) (p : Str) (hwf : wfJson v = true)
    (hns : numSafeB v p = true) :
    pyLoads (renderJson v ++ p) =
      if p.all isJsonWs then some v else none := by
  unfold pyLoads
  have hfuel : jfuel v ≤ (renderAt 0 v ++ p).length + 1 := by
    have h1 := jfuel_le_render v 0
    simp only [List.length_append]
    omega
  simp only [renderJson]
  rw [parseVal_render v 0 p _ hfuel hwf hns]

end FppcScrape

namespace FppcScrape

/-- C1: `process_single_doc` risk classification — the tier is `critical`
iff a description-mode marker is present or the canary score is below 0.30;
`high` iff no marker and the score lies in `[0.30, 0.50)`; `medium` iff no
marker and the score lies in `[0.50, 0.70)`; and `low` iff no marker and
the score is at least 0.70.  The four rules are mutually exclusive and
cover every `(flag, score)` pair. -/
theorem C1_risk_tier_rules (dm : Bool) (score : ℚ) :
    (classifyRiskTier dm score = "critical" ↔ (dm = true ∨ score < 3/10)) ∧
    (classifyRiskTier dm score = "high" ↔
      (dm = false ∧ 3/10 ≤ score ∧ score < 1/2)) ∧
    (classifyRiskTier dm score = "medium" ↔
      (dm = false ∧ 1/2 ≤ score ∧ score < 7/10)) ∧
    (classifyRiskTier dm score = "low" ↔ (dm = false ∧ 7/10 ≤ score)) := by
  unfold classifyRiskTier
  cases dm <;> split_ifs with h1 h2 h3 <;>
    refine ⟨⟨fun hs => ?_, fun hp => ?_⟩, ⟨fun hs => ?_, fun hp => ?_⟩,
      ⟨fun hs => ?_, fun hp => ?_⟩, ⟨fun hs => ?_, fun hp => ?_⟩⟩ <;>
    first
      | rfl
      | exact absurd hs (by decide)
      | exact Or.inl rfl
      | (exact Or.inr (by linarith))
      | (refine ⟨rfl, ?_, ?_⟩ <;> linarith)
      | (refine ⟨rfl, ?_⟩ <;> linarith)
      | (exfalso; simp_all <;> linarith)

end FppcScrape

namespace FppcScrape

/-- C2 counterexample: the Phase-2 adjudication write for a repaired-look
document with similarity 0.5 sets `fidelity_risk = "verified"` with
`fidelity_score = round(0.5, 4) = 0.5 < 0.7`, refuting the claimed
invariant `risk ∈ \x7blow, verified\x7d ⇒ score ≥ 0.7`. -/
theorem C2_verified_below_070 :
    PipelineWrite ⟨pyRound4 (1/2), "haiku_verified", "verified"⟩ ∧
    pyRound4 (1/2) < 7/10 := by
  refine ⟨PipelineWrite.phase2Verified (1/2) (by norm_num), ?_⟩
  have h : pyRound4 (1/2) = 1/2 := by
    unfold pyRound4 roundHalfEven
    norm_num
  rw [h]
  norm_num

/-- C2 (amended): over every pipeline write of the fidelity columns, a
`fidelity_risk` of `"low"` is always stored with a score of at least 0.7,
but a `fidelity_risk` of `"verified"` only guarantees a score of at least
0.4 (the Phase-2 `"verified"` write stores the raw rounded similarity,
which need only clear the 0.40 hallucination threshold). -/
theorem C2_fidelity_floor_amended (w : FidelityWrite) (hw : PipelineWrite w) :
    (w.risk = "low" → 7/10 ≤ w.score) ∧
    (w.risk = "verified" → 2/5 ≤ w.score) := by
  cases hw with
  | backfillNative =>
    exact ⟨fun h => absurd h (by decide), fun _ => by norm_num⟩
  | canaryUpdate dm score =>
    constructor
    · intro h
      show (7 : ℚ)/10 ≤ pyRound4 score
      unfold classifyRiskTier at h
      split_ifs at h with h1 h2 h3 h4
      · simp at h
      · simp at h
      · simp at h
      · simp at h
      · have h5 : ((7000 : ℤ) : ℚ) / 10000 ≤ score := by
          push_cast
          norm_num
          linarith [not_lt.mp h4]
        have h6 := pyRound4_ge score 7000 h5
        push_cast at h6
        norm_num at h6
        linarith
    · intro h
      unfold classifyRiskTier at h
      split_ifs at h <;> simp at h
  | phase2Unreadable =>
    exact ⟨fun h => by simp at h, fun h => by simp at h⟩
  | phase2RepairFixed =>
    exact ⟨fun _ => by norm_num, fun h => by simp at h⟩
  | phase2HallucinatedHigh sim hs =>
    exact ⟨fun h => by simp at h, fun h => by simp at h⟩
  | phase2Verified sim hs =>
    refine ⟨fun h => by simp at h, fun _ => ?_⟩
    show (2 : ℚ)/5 ≤ pyRound4 sim
    have h5 : ((4000 : ℤ) : ℚ) / 10000 ≤ sim := by
      push_cast
      norm_num
      linarith [not_lt.mp hs]
    have h6 := pyRound4_ge sim 4000 h5
    push_cast at h6
    norm_num at h6
    linarith

/-- C2 witness: the Phase-2 repair write carries risk `"low"` and its score
0.9 clears the proven 0.7 floor. -/
theorem C2_fidelity_floor_witness :
    (FidelityWrite.mk (9/10) "haiku_verified_tesseract" "low").risk = "low" ∧
    7/10 ≤ (FidelityWrite.mk (9/10) "haiku_verified_tesseract" "low").score :=
  ⟨rfl, (C2_fidelity_floor_amended _ PipelineWrite.phase2RepairFixed).1 rfl⟩

/-- C3 counterexample: for the reference list `["87100", "99999"]` the code
returns confidence 1/2 — the denominator counts every parseable reference,
`other`-band ones included — while the claimed ratio (primary-band count
over three-band count) is 1/1. -/
theorem C3_other_in_denominator :
    (classifyByCitations ["87100".data, "99999".data]).confidence = 1/2 ∧
    topicCount ["87100".data, "99999".data]
      (primaryTopic ["87100".data, "99999".data]) = 1 ∧
    specBandCountC3 ["87100".data, "99999".data] = 1 ∧
    ((1 : ℚ)/2 ≠ 1/1) := by
  refine ⟨?_, by decide, by decide, by norm_num⟩
  unfold classifyByCitations
  rw [if_neg (by decide)]
  simp only []
  rw [if_neg (by decide)]
  show ((topicCount ["87100".data, "99999".data]
      (primaryTopic ["87100".data, "99999".data]) : ℚ)) /
    ((parsedSections ["87100".data, "99999".data]).length : ℚ) = 1/2
  rw [show topicCount ["87100".data, "99999".data]
      (primaryTopic ["87100".data, "99999".data]) = 1 from by decide,
    show (parsedSections ["87100".data, "99999".data]).length = 2 from by decide]
  norm_num

/-- C3 (amended): for every reference list with at least one parseable
citation, `classify_by_citations` returns the alphabetically-first topic of
maximal count (`other` included) as primary, and its confidence is that
topic's count divided by the number of parseable references — parseable
references outside the three named bands are counted in the denominator
(under topic `other`), not excluded. -/
theorem C3_confidence_amended (refs : List Str)
    (h : parsedSections refs ≠ []) :
    classifyByCitations refs =
      ⟨if 0 < topicCount refs (primaryTopic refs) then some (primaryTopic refs)
        else none,
       (topicCount refs (primaryTopic refs) : ℚ) /
         ((parsedSections refs).length : ℚ),
       "heuristic:citation_based"⟩ := by
  have hrefs : refs ≠ [] := by
    rintro rfl
    exact h rfl
  unfold classifyByCitations
  rw [if_neg hrefs]
  simp only []
  rw [if_neg (by simpa using h)]

/-- C3 witness: on the single parseable reference `"87100"` the amended
theorem yields primary topic `conflicts_of_interest` with confidence 1/1. -/
theorem C3_confidence_witness :
    classifyByCitations ["87100".data] =
      ⟨some "conflicts_of_interest", 1, "heuristic:citation_based"⟩ := by
  have h := C3_confidence_amended ["87100".data] (by decide)
  rw [h]
  rw [show topicCount ["87100".data] (primaryTopic ["87100".data]) = 1 from
      by decide,
    show primaryTopic ["87100".data] = "conflicts_of_interest" from by decide,
    show (parsedSections ["87100".data]).length = 1 from by decide]
  norm_num

/-- C4: the vision-OCR fallback adopts the OCR text exactly when its
quality score strictly exceeds the embedded text's score; on an exact tie
the embedded text and score are retained and the method is recorded as the
composite `"native+olmocr"`. -/
theorem C4_ocr_fallback_tie (nt : Str) (ns : ℚ) (ot : Str) (os : ℚ) :
    applyOcrFallback nt ns ot os =
      (if ns < os then ⟨ot, os, "olmocr"⟩ else ⟨nt, ns, "native+olmocr"⟩) ∧
    (os = ns → applyOcrFallback nt ns ot os = ⟨nt, ns, "native+olmocr"⟩) := by
  constructor
  · rfl
  · intro h
    unfold applyOcrFallback
    rw [if_neg]
    rw [h]
    exact lt_irrefl ns

/-- C4 witness: a concrete exact tie (both scores 1) keeps the embedded
text with the composite method. -/
theorem C4_ocr_fallback_witness :
    applyOcrFallback [] 1 ['a'] 1 = ⟨[], 1, "native+olmocr"⟩ :=
  (C4_ocr_fallback_tie [] 1 ['a'] 1).2 rfl

/-- C5: after the self-citation filter no prior-opinion entry matches any
variant of the document's own letter id (uppercased comparison); the
variants of `A-22-078` are exactly the four claimed forms, and none of
them survives in any filtered list. -/
theorem C5_self_citation_filter (lid : Str) (ops : List Str) :
    (∀ op ∈ filterSelfCitations lid ops,
      upperStr op ∉ buildSelfIdVariants lid) ∧
    buildSelfIdVariants "A-22-078".data =
      ["A-22-078".data, "22-078".data, "22078".data, "A22078".data] ∧
    ∀ v ∈ buildSelfIdVariants "A-22-078".data,
      v ∉ filterSelfCitations "A-22-078".data ops := by
  refine ⟨?_, by decide, ?_⟩
  · intro op hop
    unfold filterSelfCitations at hop
    simp only [] at hop
    have h2 := List.of_mem_filter hop
    simpa using h2
  · intro v hv hvmem
    unfold filterSelfCitations at hvmem
    simp only [] at hvmem
    have h2 := List.of_mem_filter hvmem
    have h3 : upperStr v ∉ buildSelfIdVariants "A-22-078".data := by
      simpa using h2
    have h4 : upperStr v = v := by
      have hall : ∀ w ∈ buildSelfIdVariants "A-22-078".data, upperStr w = w :=
        by decide
      exact hall v hv
    apply h3
    rw [h4]
    exact hv

/-- C5 witness: the compact variant `22078` is removed from a concrete
citation list for letter id `A-22-078`. -/
theorem C5_self_citation_witness :
    "22078".data ∉
      filterSelfCitations "A-22-078".data ["22078".data, "87100".data] :=
  (C5_self_citation_filter "A-22-078".data
    ["22078".data, "87100".data]).2.2 "22078".data (by decide)

end FppcScrape

namespace FppcScrape

/-- C6 counterexample: a parse that found all four canonical sections (no
issues, era-neutral year) gets confidence 0.95 from the code — the
undocumented all-four bonus — while the claimed formula gives 0.9. -/
theorem C6_all_four_bonus :
    computeConfidence ["question", "conclusion", "analysis", "facts"] 0
      none = 19/20 ∧
    confidenceSpecC6 ["question", "conclusion", "analysis", "facts"] 0
      none = 9/10 ∧
    ((19 : ℚ)/20 ≠ 9/10) := by
  refine ⟨?_, ?_, by norm_num⟩
  · unfold computeConfidence
    norm_num
  · unfold confidenceSpecC6 eraAdjustSpecC6
    norm_num

/-- C6 (amended): the section-parse confidence equals the claimed formula
with one correction — when all four canonical sections are present the
question-and-conclusion base is 0.95 instead of 0.9; whenever not all four
sections are present, the original claimed formula is exact. -/
theorem C6_confidence_amended (ex : List String) (iC : Nat)
    (y : Option Int) :
    computeConfidence ex iC y = confidenceSpecC6Amended ex iC y ∧
    (¬("question" ∈ ex ∧ "conclusion" ∈ ex ∧ "analysis" ∈ ex ∧
        "facts" ∈ ex) →
      computeConfidence ex iC y = confidenceSpecC6 ex iC y) := by
  have main : computeConfidence ex iC y = confidenceSpecC6Amended ex iC y := by
    unfold computeConfidence confidenceSpecC6Amended eraAdjustSpecC6
    by_cases hQ : "question" ∈ ex <;> by_cases hC : "conclusion" ∈ ex <;>
      by_cases hA : "analysis" ∈ ex <;> by_cases hF : "facts" ∈ ex <;>
      simp only [hQ, hC, hA, hF, true_and, false_and, and_true, and_false,
        true_or, or_true, false_or, or_false, if_true, if_false,
        not_true, not_false_iff] <;>
      norm_num
  refine ⟨main, fun hniel => ?_⟩
  rw [main]
  unfold confidenceSpecC6Amended confidenceSpecC6
  by_cases hQC : "question" ∈ ex ∧ "conclusion" ∈ ex
  · by_cases hAF : "analysis" ∈ ex ∧ "facts" ∈ ex
    · exact absurd ⟨hQC.1, hQC.2, hAF.1, hAF.2⟩ hniel
    · rw [if_pos hQC, if_pos hQC, if_neg hAF]
  · rw [if_neg hQC, if_neg hQC]

/-- C6 witness: a parse with only the question section, no issues and no
year gets confidence 0.6 under both the code and the claimed formula. -/
theorem C6_confidence_witness :
    computeConfidence ["question"] 0 none =
      confidenceSpecC6Amended ["question"] 0 none ∧
    computeConfidence ["question"] 0 none =
      confidenceSpecC6 ["question"] 0 none :=
  ⟨(C6_confidence_amended ["question"] 0 none).1,
   (C6_confidence_amended ["question"] 0 none).2 (by decide)⟩

/-- C7: Structured Record round trip — serialising any `FPPCDocument` with
`to_json`, deserialising with `from_json` and serialising again gives back
the identical character string, so the on-disk JSON representation is
lossless. -/
theorem C7_round_trip (d : FPPCDocument) :
    (from_json (to_json d)).map to_json = some (to_json d) := by
  rw [from_json_to_json d]
  rfl

end FppcScrape

namespace FppcScrape

/-- C8 counterexample: the response `\x7b\x7d (see \x7bnotes\x7d)` is a
valid JSON object followed by trailing prose, yet `_call_llm`'s parse
fails: the direct `json.loads` rejects the trailing text and the greedy
`\x7b[\s\S]*\x7d` salvage span runs to the last `\x7d` of the prose,
which is not valid JSON. -/
theorem C8_trailing_prose_fails :
    callLlmParse "\x7b\x7d (see \x7bnotes\x7d)".data = none := by
  have h1 : stripFences "\x7b\x7d (see \x7bnotes\x7d)".data =
      "\x7b\x7d (see \x7bnotes\x7d)".data :=
    stripFences_no_btick _ (by decide)
  unfold callLlmParse salvageJson
  rw [h1]
  decide

/-- C8 (amended): for a non-empty well-formed JSON object rendered by
`json.dumps` (no backtick in the rendering), the salvage parser recovers
the object both when it is wrapped in ```` ```json ```` fences and when it
is followed by arbitrary trailing prose containing no backtick and no
closing brace — internal and trailing whitespace in the prose is fine, and
the prose may even be empty or whitespace-only.  (Prose containing `\x7d`
defeats the greedy brace-span salvage, and a response whose object is
empty is discarded by the `if result:` truthiness test, so the original
unconditional claim fails.) -/
theorem C8_salvage_amended (k : Str) (v : Json) (kvs : JsonMembers)
    (p : Str)
    (hwf : wfJson (Json.obj (.cons k v kvs)) = true)
    (hbt : ∀ c ∈ renderJson (Json.obj (.cons k v kvs)), c ≠ '`')
    (hpc : ∀ c ∈ p, c ≠ '`' ∧ c ≠ '\x7d') :
    callLlmParse ("```json\n".data ++
        (renderJson (Json.obj (.cons k v kvs)) ++ "\n```".data)) =
      some (Json.obj (.cons k v kvs)) ∧
    callLlmParse (renderJson (Json.obj (.cons k v kvs)) ++ p) =
      some (Json.obj (.cons k v kvs)) := by
  have hne : renderJson (Json.obj (.cons k v kvs)) ≠ [] := by
    intro h
    have h2 := renderObj_head k v kvs
    rw [h] at h2
    cases h2
  constructor
  · have hnone : pyLoads ("```json\n".data ++
        (renderJson (Json.obj (.cons k v kvs)) ++ "\n```".data)) = none := by
      rw [show "```json\n".data ++
          (renderJson (Json.obj (.cons k v kvs)) ++ "\n```".data) =
        '`' :: ("``json\n".data ++
          (renderJson (Json.obj (.cons k v kvs)) ++ "\n```".data)) from rfl]
      exact pyLoads_backtick _
    unfold callLlmParse salvageJson
    simp only [hnone,
      stripFences_fenced (renderJson (Json.obj (.cons k v kvs))) hbt
        (renderObj_head k v kvs),
      pyStrip_append_nl (renderJson (Json.obj (.cons k v kvs)))
        (renderObj_head k v kvs) (renderObj_getLast k v kvs),
      pyLoads_render (Json.obj (.cons k v kvs)) hwf]
    simp [jsonTruthy]
  · by_cases hdir : p.all isJsonWs = true
    · -- the trailing text is JSON whitespace only: the direct parse
      -- already succeeds
      unfold callLlmParse
      rw [pyLoads_render_append _ p hwf rfl, if_pos hdir]
    · have hnone2 : pyLoads (renderJson (Json.obj (.cons k v kvs)) ++ p) =
          none := by
        rw [pyLoads_render_append _ p hwf rfl, if_neg hdir]
      have hsf : stripFences (renderJson (Json.obj (.cons k v kvs)) ++ p) =
          renderJson (Json.obj (.cons k v kvs)) ++ p := by
        apply stripFences_no_btick
        intro c hc
        rcases List.mem_append.mp hc with h | h
        · exact hbt c h
        · exact (hpc c h).1
      have hps : pyStrip (renderJson (Json.obj (.cons k v kvs)) ++ p) =
          renderJson (Json.obj (.cons k v kvs)) ++
            (p.reverse.dropWhile isSpaceChar).reverse :=
        pyStrip_render_append _ p (renderObj_head k v kvs)
          (renderObj_getLast k v kvs)
      by_cases hq : (p.reverse.dropWhile isSpaceChar).reverse = ([] : Str)
      · -- the prose strips to nothing: the salvage parse sees exactly
        -- the rendered object
        unfold callLlmParse salvageJson
        simp only [hnone2, hsf, hps, hq, List.append_nil,
          pyLoads_render (Json.obj (.cons k v kvs)) hwf]
        simp [jsonTruthy]
      · have hqmem : ∀ c ∈ (p.reverse.dropWhile isSpaceChar).reverse,
            c ∈ p := by
          intro c hc
          have h1 : c ∈ p.reverse.dropWhile isSpaceChar :=
            List.mem_reverse.mp hc
          exact List.mem_reverse.mp (mem_of_mem_dropWhile _ _ _ h1)
        have hlast : ∃ c, ((p.reverse.dropWhile isSpaceChar).reverse).getLast?
            = some c ∧ isSpaceChar c = false := by
          obtain ⟨c, hc⟩ : ∃ c, (p.reverse.dropWhile isSpaceChar).head? =
              some c := by
            cases hh : p.reverse.dropWhile isSpaceChar with
            | nil => exact absurd (by rw [hh]; rfl) hq
            | cons a b => exact ⟨a, rfl⟩
          refine ⟨c, ?_, head_dropWhile_not _ _ _ hc⟩
          rw [← List.head?_reverse, List.reverse_reverse]
          exact hc
        have hallq : ((p.reverse.dropWhile isSpaceChar).reverse).all
            isJsonWs = false := by
          obtain ⟨c, hc, hcs⟩ := hlast
          have hcm := mem_of_getLast _ c hc
          have hjw : isJsonWs c = false := by
            cases hjc : isJsonWs c with
            | false => rfl
            | true =>
              rw [isJsonWs_space c hjc] at hcs
              cases hcs
          cases hall : ((p.reverse.dropWhile isSpaceChar).reverse).all
              isJsonWs with
          | false => rfl
          | true =>
            have h2 := List.all_eq_true.mp hall c hcm
            rw [hjw] at h2
            cases h2
        have hnone3 : pyLoads (renderJson (Json.obj (.cons k v kvs)) ++
            (p.reverse.dropWhile isSpaceChar).reverse) = none := by
          rw [pyLoads_render_append _ _ hwf rfl, if_neg (by simp [hallq])]
        have hbs : braceSpan (renderJson (Json.obj (.cons k v kvs)) ++
            (p.reverse.dropWhile isSpaceChar).reverse) =
            some (renderJson (Json.obj (.cons k v kvs))) :=
          braceSpan_render_append _ _ (renderObj_head k v kvs)
            (renderObj_getLast k v kvs) (renderObj_length k v kvs)
            (fun c hc => (hpc c (hqmem c hc)).2)
        unfold callLlmParse salvageJson
        simp only [hnone2, hsf, hps, hnone3, hbs,
          pyLoads_render (Json.obj (.cons k v kvs)) hwf]
        simp [jsonTruthy]

/-- C8 witness: the object `\x7b"a": null\x7d`, rendered by the serialiser,
is recovered both from inside ```` ```json ```` fences and when followed by
the space-containing prose `see notes above`. -/
theorem C8_salvage_witness :
    callLlmParse ("```json\n".data ++
        (renderJson (Json.obj (.cons ['a'] .null .nil)) ++ "\n```".data)) =
      some (Json.obj (.cons ['a'] .null .nil)) ∧
    callLlmParse (renderJson (Json.obj (.cons ['a'] .null .nil)) ++
        " see notes above".data) =
      some (Json.obj (.cons ['a'] .null .nil)) :=
  C8_salvage_amended ['a'] .null .nil " see notes above".data (by decide)
    (by decide) (by decide)

end FppcScrape

namespace FppcScrape

/-- C9 counterexample: a text whose only marker is the agency self-mention
scores 0.34, not the claimed uniform 0.33 per marker. -/
theorem C9_fppc_034 :
    (computeContentScore "FPPC".data).1 = 34/100 ∧ ((34 : ℚ)/100 ≠ 33/100) := by
  refine ⟨?_, by norm_num⟩
  unfold computeContentScore
  simp only []
  rw [show hasDatePattern "FPPC".data = false from by decide,
    show hasFppcMention (upperStr "FPPC".data) = true from by decide,
    show decide (sectionHeaderCount (upperStr "FPPC".data) ≥ 2) = false from
      by decide]
  norm_num

/-- C9 (amended): each of the three genre markers contributes to the
content sub-score, but not uniformly — the date pattern and the
two-section-header markers contribute 0.33 each while the agency
self-mention contributes 0.34; equivalently the sub-score is 0.33 times
the number of markers present plus an extra 0.01 when the self-mention is
among them. -/
theorem C9_content_score_amended (text : Str) :
    (computeContentScore text).1 =
      33/100 * (markersPresentC9 text : ℚ) +
      (if hasFppcMention (upperStr text) then 1/100 else 0) := by
  unfold computeContentScore markersPresentC9
  simp only [decide_eq_true_eq]
  split_ifs <;> push_cast <;> norm_num

/-- C10 counterexample: a document with literally empty olmOCR text is
short-circuited by `process_single_doc` to canary score 0.0 and risk
`high` (with an error) before `compare_texts` is consulted, even though
`compare_texts` itself returns 1.0 on two empty texts — so such a document
is not scored 1.0 or classified low risk as claimed. -/
theorem C10_empty_olm_high_risk :
    processCanary [] [] = ⟨0, false, "high", some "no olmOCR text found"⟩ ∧
    compareTexts [] [] = 1 ∧
    ("high" : String) ≠ "low" := by
  refine ⟨?_, rfl, by decide⟩
  unfold processCanary
  rw [if_pos rfl]

/-- C10 (amended): `compare_texts` returns exactly 1.0 when both texts
normalise to the empty string and exactly 0.0 when exactly one of them
does; but a document whose stored olmOCR text is literally empty never
reaches the comparison — `process_single_doc` short-circuits it to score
0.0 and risk `high` — and only for non-empty olmOCR text is the document
scored with `compare_texts` and classified from the unrounded score. -/
theorem C10_canary_empty_amended (tess olm : Str) :
    (normalizeForComparison tess = [] → normalizeForComparison olm = [] →
      compareTexts tess olm = 1) ∧
    (normalizeForComparison tess = [] → normalizeForComparison olm ≠ [] →
      compareTexts tess olm = 0) ∧
    (normalizeForComparison tess ≠ [] → normalizeForComparison olm = [] →
      compareTexts tess olm = 0) ∧
    processCanary [] tess = ⟨0, false, "high", some "no olmOCR text found"⟩ ∧
    (olm ≠ [] → processCanary olm tess =
      ⟨pyRound4 (compareTexts tess olm), detectDescriptionMode olm,
       classifyRiskTier (detectDescriptionMode olm) (compareTexts tess olm),
       none⟩) := by
  refine ⟨?_, ?_, ?_, ?_, ?_⟩
  · intro h1 h2
    unfold compareTexts
    simp only []
    rw [if_pos ⟨h1, h2⟩]
  · intro h1 h2
    unfold compareTexts
    simp only []
    rw [if_neg (fun hand => h2 hand.2), if_pos (Or.inl h1)]
  · intro h1 h2
    unfold compareTexts
    simp only []
    rw [if_neg (fun hand => h1 hand.1), if_pos (Or.inr h2)]
  · unfold processCanary
    rw [if_pos rfl]
  · intro h
    unfold processCanary
    rw [if_neg h]

/-- C10 witness: empty Tesseract text against the non-empty olmOCR text
`a` scores 0.0 (exactly one side normalises to empty) and the full
single-document outcome is score 0.0 with risk `critical`. -/
theorem C10_canary_empty_witness :
    compareTexts [] ['a'] = 0 ∧
    processCanary ['a'] [] = ⟨0, false, "critical", none⟩ := by
  constructor
  · exact (C10_canary_empty_amended [] ['a']).2.1 rfl (by decide)
  · have h := (C10_canary_empty_amended [] ['a']).2.2.2.2 (by simp)
    rw [h]
    have hc : compareTexts [] ['a'] = 0 :=
      (C10_canary_empty_amended [] ['a']).2.1 rfl (by decide)
    rw [hc]
    rw [show detectDescriptionMode ['a'] = false from by decide]
    have hp0 : pyRound4 0 = 0 := by
      unfold pyRound4 roundHalfEven
      norm_num
    have hcl : classifyRiskTier false 0 = "critical" := by
      unfold classifyRiskTier
      norm_num
    rw [hp0, hcl]

end FppcScrape
